import Mathlib

/-!
Verification model of `aries_cloudagent/messaging/agent_message.py`:
the agent-message envelope, its per-field detached signatures, thread
correlation, and the load/dump serialization pipeline with its
signed-fields policy.  The `AgentMessage` / `AgentMessageSchema` logic is
translated from the source file; the decorator-set, signature-decorator
and thread-decorator collaborators (which live outside the provided
source) are modelled from the specification, as marked on each such
definition.
-/

set_option autoImplicit false

/-- Modelled from the spec: `ThreadDecorator` with a thread id `thid`
(string) and an optional parent thread id `pthid`
(`decorators/thread_decorator.py` is not among the provided sources). -/
structure ThreadDecorator where
  thid : String
  pthid : Option String
  deriving DecidableEq

/-- Modelled from the spec: the opaque signer/verifier service
(`wallet.base.BaseWallet`), with `sign(key, payload) -> bytes` and
`verify(key, payload, signature) -> bool`.  Payloads are the
`(value, timestamp)` pairs produced by `SignatureDecorator.create`. -/
structure Wallet where
  sign : String → String × Nat → String
  verify : String → String × Nat → String → Bool

/-- Modelled from the spec: `FieldSignature` / `SignatureDecorator`:
signer verkey, the encoded `(value, timestamp)` payload, and the raw
signature bytes (`decorators/signature_decorator.py` is not among the
provided sources).  The payload encoding is kept as the pair itself,
which is faithful to a lossless `encode`. -/
structure SignatureDecorator where
  signer : String
  payload_value : String
  payload_ts : Nat
  sig_bytes : String
  deriving DecidableEq

/-- Modelled from the spec: `SignatureDecorator.create`: build the
payload from the value and timestamp and sign it with the wallet. -/
def SignatureDecorator.create (value : String) (signer_verkey : String)
    (wallet : Wallet) (timestamp : Nat) : SignatureDecorator :=
  { signer := signer_verkey
    payload_value := value
    payload_ts := timestamp
    sig_bytes := wallet.sign signer_verkey (value, timestamp) }

/-- Modelled from the spec: `SignatureDecorator.verify` asks the wallet
to check the stored signature bytes against the payload; the boolean
result is returned as data. -/
def SignatureDecorator.verify (sd : SignatureDecorator) (wallet : Wallet) : Bool :=
  wallet.verify sd.signer (sd.payload_value, sd.payload_ts) sd.sig_bytes

/-- Modelled from the spec: `SignatureDecorator.decode` is the pure
inverse of the payload encoding, returning `(value, timestamp)`. -/
def SignatureDecorator.decode (sd : SignatureDecorator) : String × Nat :=
  (sd.payload_value, sd.payload_ts)

/-- A wire-map value: a plain (string) value, the wire form of a thread
decorator, or the wire form of a detached field signature. -/
inductive WireVal where
  | str (s : String)
  | thr (t : ThreadDecorator)
  | sigv (sd : SignatureDecorator)
  deriving DecidableEq

/-- Modelled from the spec: the wire encoding of a `SignatureDecorator`
as one opaque value, used as the content of a `<field>~sig` wire key. -/
def SignatureDecorator.serialize (sd : SignatureDecorator) : WireVal :=
  WireVal.sigv sd

/-- A value stored as a global decorator: either a parsed thread
decorator or an unrecognized decorator kept as its raw wire value. -/
inductive DecoValue where
  | thread (t : ThreadDecorator)
  | opq (v : WireVal)
  deriving DecidableEq

/-- `true` exactly on the `thread` constructor. -/
def DecoValue.isThread : DecoValue → Bool
  | .thread _ => true
  | .opq _ => false

/-- Wire form of a stored global decorator value. -/
def DecoValue.toWire : DecoValue → WireVal
  | .thread t => WireVal.thr t
  | .opq v => v

/-- The per-field decorator map of one field: the `"sig"` entry (held by
`field(name)["sig"]`) plus the remaining decorator kinds of that field. -/
structure FieldDecos where
  sig : Option SignatureDecorator
  others : List (String × WireVal)
  deriving DecidableEq

/-- Modelled from the spec: `DecoratorSet` splits decorators into global
decorators (keyed by name) and per-field decorators (keyed by field
name, then decorator kind). -/
structure DecoratorSet where
  globals : List (String × DecoValue)
  fields : List (String × FieldDecos)
  deriving DecidableEq

/-- An ordered wire map, as produced by JSON parsing and `OrderedDict`. -/
abbrev WireMap := List (String × WireVal)

/-- The key list of an ordered map. -/
def keys {α : Type} (m : List (String × α)) : List String :=
  m.map Prod.fst

/-- First-match lookup in an ordered map (Python `dict.get`). -/
def alookup {α : Type} (m : List (String × α)) (k : String) : Option α :=
  match m with
  | [] => none
  | (k2, v) :: rest => if k2 = k then some v else alookup rest k

/-- Python `dict.__setitem__`: replace the value in place when the key
exists, otherwise append the new entry at the end. -/
def odInsert {α : Type} (m : List (String × α)) (k : String) (v : α) :
    List (String × α) :=
  match m with
  | [] => [(k, v)]
  | (k2, v2) :: rest =>
    if k2 = k then (k, v) :: rest else (k2, v2) :: odInsert rest k v

/-- Python `dict.update`: insert every entry of `e` into `m` in order. -/
def odUpdate {α : Type} (m e : List (String × α)) : List (String × α) :=
  e.foldl (fun acc p => odInsert acc p.1 p.2) m

/-- Python `del d[k]`: remove the entry for `k`, or fail (`KeyError`)
when `k` is absent. -/
def odDel {α : Type} (m : List (String × α)) (k : String) :
    Option (List (String × α)) :=
  match m with
  | [] => none
  | (k2, v) :: rest =>
    if k2 = k then some rest else (odDel rest k).map (fun r => (k2, v) :: r)

/-- Python `dict.pop(k)` guarded by `k in d`: the removed value (if any)
and the remaining map. -/
def popKey (m : WireMap) (k : String) : Option WireVal × WireMap :=
  match m with
  | [] => (none, [])
  | (k2, v) :: rest =>
    if k2 = k then (some v, rest)
    else
      let r := popKey rest k
      (r.1, (k2, v) :: r.2)

/-- Splits a character list at every `~` (the decorator marker). -/
def splitTilde : List Char → List (List Char)
  | [] => [[]]
  | c :: rest =>
    let r := splitTilde rest
    if c = '~' then [] :: r
    else
      match r with
      | [] => [[c]]
      | h :: t => (c :: h) :: t

/-- Classification of one wire key by the decorator-extraction scan. -/
inductive KeyParse where
  | plain
  | glob (name : String)
  | fieldDeco (field : String) (kind : String)
  deriving DecidableEq

/-- Modelled from the spec: parse one wire key: no marker means a plain
field key; `~name` is a global decorator; `<field>~kind` is a per-field
decorator; anything else is an unparseable decorator key. -/
def parseKey (k : String) : Option KeyParse :=
  match splitTilde k.toList with
  | [_] => some KeyParse.plain
  | [[], n] => if n = [] then none else some (KeyParse.glob (String.mk n))
  | [f, kd] => if kd = [] then none else some (KeyParse.fieldDeco (String.mk f) (String.mk kd))
  | _ => none

/-- `DecoratorSet.__setitem__` on the global decorators. -/
def DecoratorSet.setGlobal (ds : DecoratorSet) (n : String) (v : DecoValue) :
    DecoratorSet :=
  { ds with globals := odInsert ds.globals n v }

/-- `DecoratorSet.get` on the global decorators. -/
def DecoratorSet.getGlobal (ds : DecoratorSet) (n : String) : Option DecoValue :=
  alookup ds.globals n

/-- Inner worker for `DecoratorSet.setSig`. -/
def setSigFields (f : String) (sd : SignatureDecorator) :
    List (String × FieldDecos) → List (String × FieldDecos)
  | [] => [(f, { sig := some sd, others := [] })]
  | (f2, fd) :: rest =>
    if f2 = f then (f2, { fd with sig := some sd }) :: rest
    else (f2, fd) :: setSigFields f sd rest

/-- `decorators.field(name)["sig"] = value`: get-or-create the per-field
map for `f` and store the signature under `"sig"`. -/
def DecoratorSet.setSig (ds : DecoratorSet) (f : String) (sd : SignatureDecorator) :
    DecoratorSet :=
  { ds with fields := setSigFields f sd ds.fields }

/-- Inner worker for `DecoratorSet.setFieldOther`. -/
def setOtherFields (f kind : String) (v : WireVal) :
    List (String × FieldDecos) → List (String × FieldDecos)
  | [] => [(f, { sig := none, others := [(kind, v)] })]
  | (f2, fd) :: rest =>
    if f2 = f then (f2, { fd with others := odInsert fd.others kind v }) :: rest
    else (f2, fd) :: setOtherFields f kind v rest

/-- `decorators.field(name)[kind] = value` for a non-signature kind. -/
def DecoratorSet.setFieldOther (ds : DecoratorSet) (f kind : String) (v : WireVal) :
    DecoratorSet :=
  { ds with fields := setOtherFields f kind v ds.fields }

/-- Modelled from the spec: `DecoratorSet.to_dict` reconstructs the
decorator wire keys, global decorators first, then per-field
decorators. -/
def DecoratorSet.to_dict (ds : DecoratorSet) : WireMap :=
  ds.globals.map (fun p => ("~" ++ p.1, p.2.toWire)) ++
    (ds.fields.map (fun p =>
      (match p.2.sig with
       | some sd => [(p.1 ++ "~sig", WireVal.sigv sd)]
       | none => []) ++
      p.2.others.map (fun q => (p.1 ++ "~" ++ q.1, q.2)))).flatten

/-- The per-kind configuration of a concrete message class: the
`Meta.message_type` of the `AgentMessage` subclass and the
`Meta.signed_fields` of its schema. -/
structure MessageKind where
  message_type : Option String
  signed_fields : List String
  deriving DecidableEq

/-- The agent-message envelope state: its kind, message id (with the
freshly-generated flag), its decorator set, and — modelled from the
spec's external field-schema collaborator — the business-field values
the subclass fields would hold, as an ordered plain map. -/
structure AgentMessage where
  kind : MessageKind
  message_id : String
  message_new_id : Bool
  decorators : DecoratorSet
  body : WireMap
  deriving DecidableEq

/-- `AgentMessage.__init__`: take the supplied id when it is truthy,
otherwise generate a fresh one (`fresh` stands for `uuid.uuid4()`), then
fail with a `TypeError` when the kind declares no message type. -/
def AgentMessage.mk0 (kind : MessageKind) (idOpt : Option String)
    (dsOpt : Option DecoratorSet) (body : WireMap) (fresh : String) :
    Except String AgentMessage :=
  let idv : String × Bool :=
    match idOpt with
    | some s => if s = "" then (fresh, true) else (s, false)
    | none => (fresh, true)
  if kind.message_type.getD "" = "" then
    Except.error "Cannot instantiate abstract class with no message_type"
  else
    Except.ok
      { kind := kind
        message_id := idv.1
        message_new_id := idv.2
        decorators := dsOpt.getD { globals := [], fields := [] }
        body := body }

/-- The `_id` property setter (lines 121-124 of the source). -/
def AgentMessage.set_id (m : AgentMessage) (v : String) : AgentMessage :=
  { m with message_id := v }

/-- The `_decorators` property setter. -/
def AgentMessage.set_decorators (m : AgentMessage) (ds : DecoratorSet) :
    AgentMessage :=
  { m with decorators := ds }

/-- `AgentMessage.get_signature`: the `"sig"` entry of the field's
per-field decorator map, when present. -/
def AgentMessage.get_signature (m : AgentMessage) (field_name : String) :
    Option SignatureDecorator :=
  (alookup m.decorators.fields field_name).bind FieldDecos.sig

/-- `AgentMessage.set_signature`: add or replace the signature stored
for a named field. -/
def AgentMessage.set_signature (m : AgentMessage) (field_name : String)
    (sd : SignatureDecorator) : AgentMessage :=
  { m with decorators := m.decorators.setSig field_name sd }

/-- `AgentMessage.sign_field`: read the current field value (absent
means a fault), create the signature and store it. -/
def AgentMessage.sign_field (m : AgentMessage) (field_name : String)
    (signer_verkey : String) (wallet : Wallet) (timestamp : Nat) :
    Except String (AgentMessage × SignatureDecorator) :=
  match alookup m.body field_name with
  | none => Except.error ("field has no value for signature: " ++ field_name)
  | some v =>
    let value :=
      match v with
      | WireVal.str s => s
      | WireVal.thr t => t.thid
      | WireVal.sigv sd => sd.signer
    let sd := SignatureDecorator.create value signer_verkey wallet timestamp
    Except.ok (m.set_signature field_name sd, sd)

/-- `AgentMessage.verify_signed_field`: fault when no signature is
stored, when verification returns false, or when an expected signer is
supplied and differs; otherwise return the stored signer verkey. -/
def AgentMessage.verify_signed_field (m : AgentMessage) (field_name : String)
    (wallet : Wallet) (signer_verkey : Option String) : Except String String :=
  match m.get_signature field_name with
  | none => Except.error ("Missing field signature: " ++ field_name)
  | some sd =>
    if sd.verify wallet = false then
      Except.error ("Field signature verification failed: " ++ field_name)
    else
      match signer_verkey with
      | some k =>
        if sd.signer ≠ k then
          Except.error ("Signer verkey of signature does not match: " ++ field_name)
        else Except.ok sd.signer
      | none => Except.ok sd.signer

/-- The loop of `AgentMessage.verify_signatures`: walk the per-field
decorator maps and return false at the first stored signature that
fails to verify. -/
def verifySigsGo (wallet : Wallet) : List (String × FieldDecos) → Bool
  | [] => true
  | (_, fd) :: rest =>
    match fd.sig with
    | some sd => if sd.verify wallet = false then false else verifySigsGo wallet rest
    | none => verifySigsGo wallet rest

/-- `AgentMessage.verify_signatures`: true iff every stored per-field
signature verifies, short-circuiting on the first failure. -/
def AgentMessage.verify_signatures (m : AgentMessage) (wallet : Wallet) : Bool :=
  verifySigsGo wallet m.decorators.fields

/-- The `_thread` property getter: the parsed thread decorator stored
under the global name `"thread"`, if any. -/
def AgentMessage.thread (m : AgentMessage) : Option ThreadDecorator :=
  match m.decorators.getGlobal "thread" with
  | some (DecoValue.thread t) => some t
  | _ => none

/-- `AgentMessage.assign_thread_id`: store a new thread decorator with
the given thread id and optional parent thread id. -/
def AgentMessage.assign_thread_id (m : AgentMessage) (thid : String)
    (pthid : Option String) : AgentMessage :=
  { m with decorators :=
      m.decorators.setGlobal "thread" (DecoValue.thread { thid := thid, pthid := pthid }) }

/-- `AgentMessage.assign_thread_from`: no-op when the previous message
is absent; otherwise derive `thid` as `thread and thread.thid or
msg._message_id` (Python truthiness: an empty `thid` also falls back to
the previous message id) and `pthid` as `thread and thread.pthid`. -/
def AgentMessage.assign_thread_from (m : AgentMessage) (msg : Option AgentMessage) :
    AgentMessage :=
  match msg with
  | none => m
  | some prev =>
    let th := prev.thread
    let thid :=
      match th with
      | some t => if t.thid = "" then prev.message_id else t.thid
      | none => prev.message_id
    let pthid := th.bind ThreadDecorator.pthid
    m.assign_thread_id thid pthid

/-! ### Load pipeline -/

/-- Validation / configuration faults raised by the load pipeline. -/
inductive LoadErr where
  | validation (msg : String)
  | config (msg : String)
  deriving DecidableEq

/-- Intermediate state of the decorator-extraction scan: the plain map
built so far and the decorator set populated so far. -/
structure ExtractState where
  plain : WireMap
  ds : DecoratorSet
  deriving DecidableEq

/-- Modelled from the spec: one step of `DecoratorSet.extract_decorators`:
classify the wire key, route globals and per-field decorators into the
decorator set (parsing `~thread` and `<field>~sig` values into their
decorator models), pass all other keys through into the plain map, and
fault on a decorator key or value that cannot be parsed. -/
def extStep (st : ExtractState) (kv : String × WireVal) : Except String ExtractState :=
  match parseKey kv.1 with
  | none => Except.error ("Unable to parse decorator key: " ++ kv.1)
  | some KeyParse.plain => Except.ok { st with plain := odInsert st.plain kv.1 kv.2 }
  | some (KeyParse.glob n) =>
    if n = "thread" then
      match kv.2 with
      | WireVal.thr t => Except.ok { st with ds := st.ds.setGlobal "thread" (DecoValue.thread t) }
      | _ => Except.error ("Unable to parse thread decorator: " ++ kv.1)
    else Except.ok { st with ds := st.ds.setGlobal n (DecoValue.opq kv.2) }
  | some (KeyParse.fieldDeco f kind) =>
    if kind = "sig" then
      match kv.2 with
      | WireVal.sigv sd => Except.ok { st with ds := st.ds.setSig f sd }
      | _ => Except.error ("Unable to parse field signature: " ++ kv.1)
    else Except.ok { st with ds := st.ds.setFieldOther f kind kv.2 }

/-- The full decorator-extraction scan over a raw wire map. -/
def extractGo : WireMap → ExtractState → Except String ExtractState
  | [], st => Except.ok st
  | kv :: rest, st => (extStep st kv).bind (extractGo rest)

/-- Modelled from the spec: `DecoratorSet.extract_decorators` on a raw
wire map, starting from an empty plain map and decorator set. -/
def DecoratorSet.extract_decorators (raw : WireMap) : Except String ExtractState :=
  extractGo raw { plain := [], ds := { globals := [], fields := [] } }

/-- The signed-fields loop of `AgentMessageSchema.extract_decorators`:
for each extracted per-field decorator map holding a `"sig"` entry,
fault when the field is outside the policy or also present as a plain
key, otherwise record the signature and write its decoded value into
the plain map. -/
def csfLoop (expect : List String) (flds : List (String × FieldDecos))
    (processed : WireMap) (found : List (String × SignatureDecorator)) :
    Except String (WireMap × List (String × SignatureDecorator)) :=
  match flds with
  | [] => Except.ok (processed, found)
  | (f, fd) :: rest =>
    match fd.sig with
    | none => csfLoop expect rest processed found
    | some sd =>
      if f ∈ expect then
        if f ∈ keys processed then
          Except.error ("Message defines both field signature and value: " ++ f)
        else
          csfLoop expect rest (processed ++ [(f, WireVal.str sd.decode.1)])
            (found ++ [(f, sd)])
      else Except.error ("Encountered unexpected field signature: " ++ f)

/-- The first entry of `expect` that is not in `present` (the field
whose check raises first), if any. -/
def firstMissing (expect present : List String) : Option String :=
  match expect with
  | [] => none
  | f :: rest => if f ∈ present then firstMissing rest present else some f

/-- The policy checks of `AgentMessageSchema.extract_decorators` after
extraction: run the signed-fields loop, then require a found signature
for every policy field. -/
def extract_decorators_checks (processed : WireMap) (ds : DecoratorSet)
    (expect : List String) : Except String WireMap :=
  (csfLoop expect ds.fields processed []).bind (fun res =>
    match firstMissing expect (keys res.2) with
    | some f => Except.error ("Expected field signature: " ++ f)
    | none => Except.ok res.1)

/-- The full load pipeline: extract decorators from the raw map, apply
the signed-fields checks, split off `@id` for the envelope id and
`@type`/`@id` from the business fields, construct the envelope
(`AgentMessage.mk0`) and attach the populated decorator set
(`populate_decorators`). -/
def fullLoad (kind : MessageKind) (raw : WireMap) (expect : List String)
    (fresh : String) : Except LoadErr AgentMessage :=
  ((DecoratorSet.extract_decorators raw).mapError LoadErr.validation).bind (fun st =>
    ((extract_decorators_checks st.plain st.ds expect).mapError LoadErr.validation).bind
      (fun p2 =>
        let idOpt : Option String :=
          match alookup p2 "@id" with
          | some (WireVal.str s) => some s
          | _ => none
        let body := p2.filter (fun p => p.1 ≠ "@type" ∧ p.1 ≠ "@id")
        ((AgentMessage.mk0 kind idOpt none body fresh).mapError LoadErr.config).bind
          (fun m => Except.ok (m.set_decorators st.ds))))

/-! ### Dump pipeline -/

/-- Faults of the dump pipeline: a declared dump fault
(`BaseModelError`) or an unhandled Python `KeyError`. -/
inductive DumpErr where
  | model (msg : String)
  | keyError (k : String)
  deriving DecidableEq

/-- The decorator snapshot of `check_dump_decorators` after moving every
`"sig"` entry out: each per-field map keeps its other kinds only. -/
def pruneSigs (ds : DecoratorSet) : DecoratorSet :=
  { ds with fields := ds.fields.map (fun p => (p.1, { p.2 with sig := none })) }

/-- The side table of `check_dump_decorators`: the serialized stored
signature of every signature-carrying field, in field order. -/
def sigTable (ds : DecoratorSet) : List (String × WireVal) :=
  ds.fields.filterMap (fun p => p.2.sig.map (fun sd => (p.1, sd.serialize)))

/-- The signature-carrying field names of an envelope, in field order. -/
def sigFieldsOf (m : AgentMessage) : List String :=
  m.decorators.fields.filterMap (fun p => p.2.sig.map (fun _ => p.1))

/-- `AgentMessageSchema.check_dump_decorators` (pre-dump): copy the
decorator set, move the signatures into the side table, render the
remaining decorators to wire form, then fault on any policy field
without a stored signature. -/
def check_dump_decorators (m : AgentMessage) (expect : List String) :
    Except DumpErr (WireMap × List (String × WireVal)) :=
  let dd := (pruneSigs m.decorators).to_dict
  let sigs := sigTable m.decorators
  match firstMissing expect (keys sigs) with
  | some f => Except.error (DumpErr.model ("Missing signature for field: " ++ f))
  | none => Except.ok (dd, sigs)

/-- `AgentMessageSchema.dump_decorators` (post-dump): move `@type` and
`@id` to the front, then the decorator wire map, then the remaining
serialized data. -/
def dump_decorators_hook (dd : WireMap) (data : WireMap) : WireMap :=
  let p1 := popKey data "@type"
  let p2 := popKey p1.2 "@id"
  let front : WireMap :=
    (match p1.1 with | some v => [("@type", v)] | none => []) ++
    (match p2.1 with | some v => [("@id", v)] | none => [])
  odUpdate (odUpdate front dd) p2.2

/-- `AgentMessageSchema.replace_signatures` (post-dump): for every entry
of the side table, delete the plain key (an unguarded `del`, so a
missing key is a `KeyError`) and append the `<field>~sig` entry. -/
def replace_signatures_hook (data : WireMap) :
    List (String × WireVal) → Except DumpErr WireMap
  | [] => Except.ok data
  | (f, sv) :: rest =>
    match odDel data f with
    | none => Except.error (DumpErr.keyError f)
    | some d2 => replace_signatures_hook (odInsert d2 (f ++ "~sig") sv) rest

/-- The full dump pipeline: pre-dump decorator check, schema dump of
`@type`, `@id` and the business fields, decorator composition, then
signature replacement. -/
def fullDump (m : AgentMessage) (expect : List String) : Except DumpErr WireMap :=
  (check_dump_decorators m expect).bind (fun res =>
    let data0 : WireMap :=
      ("@type", WireVal.str (m.kind.message_type.getD "")) ::
      ("@id", WireVal.str m.message_id) :: m.body
    replace_signatures_hook (dump_decorators_hook res.1 data0) res.2)

/-! ### Ordered-map lemmas -/

theorem keys_cons {α : Type} (p : String × α) (m : List (String × α)) :
    keys (p :: m) = p.1 :: keys m := rfl

theorem keys_append {α : Type} (m1 m2 : List (String × α)) :
    keys (m1 ++ m2) = keys m1 ++ keys m2 := by
  simp [keys]

theorem not_mem_keys_cons_head {α : Type} {p : String × α} {m : List (String × α)}
    {k : String} (h : k ∉ keys (p :: m)) : p.1 ≠ k := by
  intro he
  exact h (by rw [keys_cons, he]; exact List.mem_cons_self _ _)

theorem not_mem_keys_cons_tail {α : Type} {p : String × α} {m : List (String × α)}
    {k : String} (h : k ∉ keys (p :: m)) : k ∉ keys m := by
  intro hm
  exact h (by rw [keys_cons]; exact List.mem_cons_of_mem _ hm)

theorem alookup_cons {α : Type} (p : String × α) (m : List (String × α)) (k : String) :
    alookup (p :: m) k = if p.1 = k then some p.2 else alookup m k := by
  cases p; rfl

theorem alookup_append_left {α : Type} {m1 : List (String × α)} {k : String} {v : α}
    (m2 : List (String × α)) (h : alookup m1 k = some v) :
    alookup (m1 ++ m2) k = some v := by
  induction m1 with
  | nil => simp [alookup] at h
  | cons p rest ih =>
    rw [alookup_cons] at h
    rw [List.cons_append, alookup_cons]
    by_cases hk : p.1 = k
    · simpa [hk] using h
    · rw [if_neg hk] at h ⊢
      exact ih h

theorem alookup_append_of_not_mem {α : Type} {m1 : List (String × α)} {k : String}
    (m2 : List (String × α)) (h : k ∉ keys m1) :
    alookup (m1 ++ m2) k = alookup m2 k := by
  induction m1 with
  | nil => rfl
  | cons p rest ih =>
    rw [List.cons_append, alookup_cons, if_neg (not_mem_keys_cons_head h)]
    exact ih (not_mem_keys_cons_tail h)

theorem alookup_eq_none_of_not_mem {α : Type} {m : List (String × α)} {k : String}
    (h : k ∉ keys m) : alookup m k = none := by
  induction m with
  | nil => rfl
  | cons p rest ih =>
    rw [alookup_cons, if_neg (not_mem_keys_cons_head h)]
    exact ih (not_mem_keys_cons_tail h)

theorem mem_of_alookup_eq_some {α : Type} {m : List (String × α)} {k : String} {v : α}
    (h : alookup m k = some v) : (k, v) ∈ m := by
  induction m with
  | nil => simp [alookup] at h
  | cons p rest ih =>
    rw [alookup_cons] at h
    by_cases hk : p.1 = k
    · rw [if_pos hk] at h
      have hv : p.2 = v := by simpa using h
      have : p = (k, v) := by
        cases p
        simp only at hk hv
        rw [hk, hv]
      rw [← this]
      exact List.mem_cons_self _ _
    · rw [if_neg hk] at h
      exact List.mem_cons_of_mem _ (ih h)

theorem mem_keys_of_alookup_eq_some {α : Type} {m : List (String × α)} {k : String}
    {v : α} (h : alookup m k = some v) : k ∈ keys m :=
  List.mem_map.mpr ⟨(k, v), mem_of_alookup_eq_some h, rfl⟩

theorem alookup_of_mem_nodup {α : Type} {m : List (String × α)} {k : String} {v : α}
    (hnd : (keys m).Nodup) (h : (k, v) ∈ m) : alookup m k = some v := by
  induction m with
  | nil => simp at h
  | cons p rest ih =>
    rw [keys_cons, List.nodup_cons] at hnd
    rcases List.mem_cons.mp h with he | hm
    · rw [alookup_cons, ← he]
      simp
    · rw [alookup_cons]
      have hk : p.1 ≠ k := by
        intro hpk
        exact hnd.1 (by rw [hpk]; exact List.mem_map.mpr ⟨(k, v), hm, rfl⟩)
      rw [if_neg hk]
      exact ih hnd.2 hm

theorem odInsert_of_not_mem {α : Type} {m : List (String × α)} {k : String} (v : α)
    (h : k ∉ keys m) : odInsert m k v = m ++ [(k, v)] := by
  induction m with
  | nil => rfl
  | cons p rest ih =>
    show (if p.1 = k then _ else _) = _
    rw [if_neg (not_mem_keys_cons_head h), List.cons_append,
      ih (not_mem_keys_cons_tail h)]

theorem odUpdate_eq_append {α : Type} {e : List (String × α)} :
    ∀ {m : List (String × α)}, (∀ k ∈ keys e, k ∉ keys m) → (keys e).Nodup →
    odUpdate m e = m ++ e := by
  induction e with
  | nil => intro m _ _; simp [odUpdate]
  | cons p rest ih =>
    intro m hdis hnd
    rw [keys_cons] at hdis hnd
    rw [List.nodup_cons] at hnd
    have h1 : p.1 ∉ keys m := hdis p.1 (List.mem_cons_self _ _)
    show odUpdate (odInsert m p.1 p.2) rest = m ++ p :: rest
    rw [odInsert_of_not_mem p.2 h1, ih ?_ hnd.2]
    · simp
    · intro k hk
      rw [keys_append]
      intro hmem
      rcases List.mem_append.mp hmem with hl | hr
      · exact hdis k (List.mem_cons_of_mem _ hk) hl
      · have : k = p.1 := by simpa [keys] using hr
        rw [this] at hk
        exact hnd.1 hk

theorem alookup_odInsert_self {α : Type} (m : List (String × α)) (k : String) (v : α) :
    alookup (odInsert m k v) k = some v := by
  induction m with
  | nil => simp [odInsert, alookup]
  | cons p rest ih =>
    show alookup (if p.1 = k then _ else _) k = _
    by_cases hk : p.1 = k
    · rw [if_pos hk, alookup_cons]
      simp
    · rw [if_neg hk, alookup_cons, if_neg hk]
      exact ih

theorem odDel_eq_none_of_not_mem {α : Type} {m : List (String × α)} {k : String}
    (h : k ∉ keys m) : odDel m k = none := by
  induction m with
  | nil => rfl
  | cons p rest ih =>
    show (if p.1 = k then _ else _) = _
    rw [if_neg (not_mem_keys_cons_head h), ih (not_mem_keys_cons_tail h)]
    rfl

theorem odDel_append_of_not_mem {α : Type} {m1 : List (String × α)} {k : String}
    (m2 : List (String × α)) (h : k ∉ keys m1) :
    odDel (m1 ++ m2) k = (odDel m2 k).map (fun r => m1 ++ r) := by
  induction m1 with
  | nil => simp
  | cons p rest ih =>
    show (if p.1 = k then _ else _) = _
    rw [if_neg (not_mem_keys_cons_head h)]
    show (odDel (rest ++ m2) k).map (fun r => (p.1, p.2) :: r) = _
    rw [ih (not_mem_keys_cons_tail h)]
    cases odDel m2 k <;> simp

theorem odDel_middle {α : Type} {m1 : List (String × α)} {k : String} (v : α)
    (m2 : List (String × α)) (h : k ∉ keys m1) :
    odDel (m1 ++ (k, v) :: m2) k = some (m1 ++ m2) := by
  rw [odDel_append_of_not_mem _ h]
  show ((if k = k then _ else _) : Option _).map _ = _
  rw [if_pos rfl]
  rfl

/-! ### Verification and thread lemmas -/

theorem verifySigsGo_eq_true_iff (w : Wallet) (l : List (String × FieldDecos)) :
    verifySigsGo w l = true ↔
      ∀ p ∈ l, ∀ sd, p.2.sig = some sd → sd.verify w = true := by
  induction l with
  | nil => simp [verifySigsGo]
  | cons p rest ih =>
    obtain ⟨n, fd⟩ := p
    cases hsd : fd.sig with
    | none =>
      have hgo : verifySigsGo w ((n, fd) :: rest) = verifySigsGo w rest := by
        simp [verifySigsGo, hsd]
      rw [hgo, ih]
      constructor
      · intro h q hq sd hsig
        rcases List.mem_cons.mp hq with he | hm
        · have hsig2 : fd.sig = some sd := by rw [he] at hsig; exact hsig
          rw [hsd] at hsig2
          cases hsig2
        · exact h q hm sd hsig
      · intro h q hq sd hsig
        exact h q (List.mem_cons_of_mem _ hq) sd hsig
    | some sd =>
      cases hv : sd.verify w with
      | false =>
        have hgo : verifySigsGo w ((n, fd) :: rest) = false := by
          simp [verifySigsGo, hsd, hv]
        rw [hgo]
        constructor
        · intro h
          cases h
        · intro h
          have ht : sd.verify w = true := h (n, fd) (List.mem_cons_self _ _) sd hsd
          rw [hv] at ht
          cases ht
      | true =>
        have hgo : verifySigsGo w ((n, fd) :: rest) = verifySigsGo w rest := by
          simp [verifySigsGo, hsd, hv]
        rw [hgo, ih]
        constructor
        · intro h q hq sd2 hsig
          rcases List.mem_cons.mp hq with he | hm
          · have hsig2 : fd.sig = some sd2 := by rw [he] at hsig; exact hsig
            rw [hsd] at hsig2
            injection hsig2 with h2
            rw [← h2]
            exact hv
          · exact h q hm sd2 hsig
        · intro h q hq sd2 hsig
          exact h q (List.mem_cons_of_mem _ hq) sd2 hsig

theorem getGlobal_setGlobal_self (ds : DecoratorSet) (n : String) (v : DecoValue) :
    (ds.setGlobal n v).getGlobal n = some v :=
  alookup_odInsert_self _ _ _

theorem thread_of_assign_thread_id (m : AgentMessage) (thid : String)
    (pthid : Option String) :
    (m.assign_thread_id thid pthid).thread = some { thid := thid, pthid := pthid } := by
  have h : (m.assign_thread_id thid pthid).decorators.getGlobal "thread" =
      some (DecoValue.thread { thid := thid, pthid := pthid }) :=
    alookup_odInsert_self _ _ _
  simp [AgentMessage.thread, h]

/-! ### Claim theorems: per-field signature verification -/

/-- C3: for every envelope, field name and optional expected signer,
`verify_signed_field` faults when no signature is stored, faults when
the stored signature's verify call returns false, faults when an
expected signer is given and differs from the stored signer key, and
otherwise returns the stored signer key. -/
theorem c3_verify_signed_field_spec (m : AgentMessage) (f : String) (w : Wallet)
    (vk : Option String) :
    (m.get_signature f = none →
      m.verify_signed_field f w vk =
        Except.error ("Missing field signature: " ++ f)) ∧
    (∀ sd, m.get_signature f = some sd → sd.verify w = false →
      m.verify_signed_field f w vk =
        Except.error ("Field signature verification failed: " ++ f)) ∧
    (∀ sd k, m.get_signature f = some sd → sd.verify w = true → vk = some k →
      k ≠ sd.signer →
      m.verify_signed_field f w vk =
        Except.error ("Signer verkey of signature does not match: " ++ f)) ∧
    (∀ sd, m.get_signature f = some sd → sd.verify w = true → vk = none →
      m.verify_signed_field f w vk = Except.ok sd.signer) ∧
    (∀ sd, m.get_signature f = some sd → sd.verify w = true → vk = some sd.signer →
      m.verify_signed_field f w vk = Except.ok sd.signer) := by
  refine ⟨?_, ?_, ?_, ?_, ?_⟩
  · intro h
    simp [AgentMessage.verify_signed_field, h]
  · intro sd h hv
    simp [AgentMessage.verify_signed_field, h, hv]
  · intro sd k h hv hk hne
    simp [AgentMessage.verify_signed_field, h, hv, hk, Ne.symm hne]
  · intro sd h hv hk
    simp [AgentMessage.verify_signed_field, h, hv, hk]
  · intro sd h hv hk
    simp [AgentMessage.verify_signed_field, h, hv, hk]

/-- Fixture wallet that accepts every signature. -/
def exWalletTrue : Wallet :=
  { sign := fun _ _ => "SIGBYTES", verify := fun _ _ _ => true }

/-- Fixture wallet that rejects every signature. -/
def exWalletFalse : Wallet :=
  { sign := fun _ _ => "SIGBYTES", verify := fun _ _ _ => false }

/-- Fixture signature decorator. -/
def exSig : SignatureDecorator :=
  { signer := "K1", payload_value := "v1", payload_ts := 7, sig_bytes := "B1" }

/-- Fixture message kind with a nonempty declared type. -/
def exKind : MessageKind := { message_type := some "test/1.0/message", signed_fields := [] }

/-- Fixture envelope with one stored field signature. -/
def exEnvSig : AgentMessage :=
  { kind := exKind
    message_id := "id-A"
    message_new_id := false
    decorators := { globals := [], fields := [("f", { sig := some exSig, others := [] })] }
    body := [("f", WireVal.str "v1")] }

theorem c3_verify_signed_field_spec_witness :
    exEnvSig.verify_signed_field "f" exWalletTrue (some "K1") = Except.ok "K1" ∧
    exEnvSig.verify_signed_field "g" exWalletTrue none =
      Except.error ("Missing field signature: " ++ "g") ∧
    exEnvSig.verify_signed_field "f" exWalletFalse none =
      Except.error ("Field signature verification failed: " ++ "f") ∧
    exEnvSig.verify_signed_field "f" exWalletTrue (some "K2") =
      Except.error ("Signer verkey of signature does not match: " ++ "f") :=
  ⟨(c3_verify_signed_field_spec exEnvSig "f" exWalletTrue (some "K1")).2.2.2.2 exSig
      (by decide) (by decide) (by decide),
   (c3_verify_signed_field_spec exEnvSig "g" exWalletTrue none).1 (by decide),
   (c3_verify_signed_field_spec exEnvSig "f" exWalletFalse none).2.1 exSig
      (by decide) (by decide),
   (c3_verify_signed_field_spec exEnvSig "f" exWalletTrue (some "K2")).2.2.1 exSig "K2"
      (by decide) (by decide) (by decide) (by decide)⟩

/-! ### Claim theorems: verify-all-signatures -/

/-- C4: `verify_signatures` returns true when no per-field decorator
entry holds a signature; returns false whenever some stored signature
fails to verify, independently of the entries after it
(short-circuit); and returns true iff every stored signature
verifies. -/
theorem c4_verify_signatures_spec (m : AgentMessage) (w : Wallet) :
    ((∀ p ∈ m.decorators.fields, p.2.sig = none) → m.verify_signatures w = true) ∧
    (∀ pre n fd post sd, m.decorators.fields = pre ++ (n, fd) :: post →
      fd.sig = some sd → sd.verify w = false → m.verify_signatures w = false) ∧
    (m.verify_signatures w = true ↔
      ∀ p ∈ m.decorators.fields, ∀ sd, p.2.sig = some sd → sd.verify w = true) := by
  refine ⟨?_, ?_, verifySigsGo_eq_true_iff w m.decorators.fields⟩
  · intro h
    rw [AgentMessage.verify_signatures, verifySigsGo_eq_true_iff]
    intro p hp sd hsig
    rw [h p hp] at hsig
    exact absurd hsig (by simp)
  · intro pre n fd post sd hfields hsig hv
    cases hres : m.verify_signatures w with
    | false => rfl
    | true =>
      rw [AgentMessage.verify_signatures, verifySigsGo_eq_true_iff] at hres
      have hmem : (n, fd) ∈ m.decorators.fields := by
        rw [hfields]
        exact List.mem_append.mpr (Or.inr (List.mem_cons_self _ _))
      have := hres (n, fd) hmem sd (by simpa using hsig)
      rw [hv] at this
      exact absurd this (by simp)

/-- Fixture envelope with two signature-carrying fields and one
signature-free field. -/
def exEnvTwoSigs : AgentMessage :=
  { kind := exKind
    message_id := "id-B"
    message_new_id := false
    decorators :=
      { globals := []
        fields :=
          [("f", { sig := some exSig, others := [] }),
           ("g", { sig := none, others := [("trace", WireVal.str "x")] }),
           ("h", { sig := some { signer := "K2", payload_value := "v2",
                                 payload_ts := 9, sig_bytes := "B2" }, others := [] })] }
    body := [] }

theorem c4_verify_signatures_spec_witness :
    exEnvSig.verify_signatures exWalletTrue = true ∧
    exEnvTwoSigs.verify_signatures exWalletFalse = false ∧
    exEnvTwoSigs.verify_signatures exWalletTrue = true :=
  ⟨(c4_verify_signatures_spec exEnvSig exWalletTrue).2.2.mpr (by decide),
   (c4_verify_signatures_spec exEnvTwoSigs exWalletFalse).2.1
      [] "f" { sig := some exSig, others := [] }
      [("g", { sig := none, others := [("trace", WireVal.str "x")] }),
       ("h", { sig := some { signer := "K2", payload_value := "v2",
                             payload_ts := 9, sig_bytes := "B2" }, others := [] })]
      exSig (by decide) (by decide) (by decide),
   (c4_verify_signatures_spec exEnvTwoSigs exWalletTrue).2.2.mpr (by decide)⟩

/-! ### Claim theorems: thread derivation -/

/-- C5: `assign_thread_from` on an absent previous message is a no-op;
otherwise the envelope's thread decorator is set with `thid` equal to
the previous message's thread decorator's `thid` when it carries a
nonempty one and otherwise the previous message's id, and with `pthid`
equal to the previous thread decorator's `pthid`, absent when the
previous message has no thread decorator. -/
theorem c5_assign_thread_from_spec (m prev : AgentMessage) :
    (m.assign_thread_from none = m) ∧
    (prev.thread = none →
      (m.assign_thread_from (some prev)).thread =
        some { thid := prev.message_id, pthid := none }) ∧
    (∀ t, prev.thread = some t → t.thid ≠ "" →
      (m.assign_thread_from (some prev)).thread =
        some { thid := t.thid, pthid := t.pthid }) ∧
    (∀ t, prev.thread = some t → t.thid = "" →
      (m.assign_thread_from (some prev)).thread =
        some { thid := prev.message_id, pthid := t.pthid }) := by
  refine ⟨rfl, ?_, ?_, ?_⟩
  · intro h
    show (m.assign_thread_id _ _).thread = _
    rw [h]
    exact thread_of_assign_thread_id m _ _
  · intro t ht hne
    show (m.assign_thread_id _ _).thread = _
    rw [ht]
    simp only [Option.bind_some]
    rw [if_neg hne]
    exact thread_of_assign_thread_id m _ _
  · intro t ht he
    show (m.assign_thread_id _ _).thread = _
    rw [ht]
    simp only [Option.bind_some]
    rw [if_pos he]
    exact thread_of_assign_thread_id m _ _

/-- Fixture envelope with an explicit thread decorator. -/
def exEnvThread : AgentMessage :=
  { kind := exKind
    message_id := "id-C"
    message_new_id := false
    decorators :=
      { globals := [("thread", DecoValue.thread { thid := "T", pthid := some "P" })]
        fields := [] }
    body := [] }

/-- Fixture envelope without a thread decorator. -/
def exEnvPlain : AgentMessage :=
  { kind := exKind
    message_id := "id-D"
    message_new_id := false
    decorators := { globals := [], fields := [] }
    body := [] }

theorem c5_assign_thread_from_spec_witness :
    exEnvPlain.assign_thread_from none = exEnvPlain ∧
    (exEnvPlain.assign_thread_from (some exEnvThread)).thread =
      some { thid := "T", pthid := some "P" } ∧
    (exEnvPlain.assign_thread_from (some exEnvSig)).thread =
      some { thid := "id-A", pthid := none } :=
  ⟨(c5_assign_thread_from_spec exEnvPlain exEnvPlain).1,
   (c5_assign_thread_from_spec exEnvPlain exEnvThread).2.2.1
      { thid := "T", pthid := some "P" } (by decide) (by decide),
   (c5_assign_thread_from_spec exEnvPlain exEnvSig).2.1 (by decide)⟩

/-! ### Claim theorems: id generation and mutation -/

/-- C7 (amended): the message id is taken from the supplied truthy id or
generated at construction, and every modelled envelope operation other
than the explicit `_id` property setter leaves the id unchanged. -/
theorem c7_id_stable_under_operations (kind : MessageKind) (i fresh : String)
    (dsOpt : Option DecoratorSet) (body : WireMap) (m : AgentMessage)
    (f sk : String) (sd : SignatureDecorator) (w : Wallet) (ts : Nat)
    (th : String) (pth : Option String) (prev : Option AgentMessage)
    (ds : DecoratorSet) :
    (∀ m2, i ≠ "" → AgentMessage.mk0 kind (some i) dsOpt body fresh = Except.ok m2 →
      m2.message_id = i) ∧
    (∀ m2, AgentMessage.mk0 kind none dsOpt body fresh = Except.ok m2 →
      m2.message_id = fresh) ∧
    ((m.set_signature f sd).message_id = m.message_id) ∧
    (∀ m2 sd2, m.sign_field f sk w ts = Except.ok (m2, sd2) →
      m2.message_id = m.message_id) ∧
    ((m.assign_thread_id th pth).message_id = m.message_id) ∧
    ((m.assign_thread_from prev).message_id = m.message_id) ∧
    ((m.set_decorators ds).message_id = m.message_id) := by
  refine ⟨?_, ?_, rfl, ?_, rfl, ?_, rfl⟩
  · intro m2 hi h
    simp only [AgentMessage.mk0.eq_def] at h
    rw [if_neg hi] at h
    split at h
    · cases h
    · cases h
      rfl
  · intro m2 h
    simp only [AgentMessage.mk0.eq_def] at h
    split at h
    · cases h
    · cases h
      rfl
  · intro m2 sd2 h
    simp only [AgentMessage.sign_field.eq_def] at h
    split at h
    · cases h
    · injection h with h2
      injection h2 with h3 h4
      rw [← h3]
      rfl
  · cases prev with
    | none => rfl
    | some p => rfl

/-- C7 counterexample: the `_id` property setter (lines 121-124) is an
operation on a constructed envelope that changes its message id, so the
id is not immutable after construction. -/
theorem c7_counterexample :
    (exEnvPlain.set_id "id-X").message_id ≠ exEnvPlain.message_id := by
  decide

theorem c7_id_stable_under_operations_witness :
    (∀ m2, "id-W" ≠ "" →
        AgentMessage.mk0 exKind (some "id-W") none [] "fresh-W" = Except.ok m2 →
        m2.message_id = "id-W") ∧
    ((exEnvSig.set_signature "g" exSig).message_id = exEnvSig.message_id) ∧
    ((exEnvSig.assign_thread_from (some exEnvThread)).message_id = exEnvSig.message_id) :=
  ⟨(c7_id_stable_under_operations exKind "id-W" "fresh-W" none [] exEnvSig "g" "K1"
      exSig exWalletTrue 0 "T" none (some exEnvThread)
      { globals := [], fields := [] }).1,
   (c7_id_stable_under_operations exKind "id-W" "fresh-W" none [] exEnvSig "g" "K1"
      exSig exWalletTrue 0 "T" none (some exEnvThread)
      { globals := [], fields := [] }).2.2.1,
   (c7_id_stable_under_operations exKind "id-W" "fresh-W" none [] exEnvSig "g" "K1"
      exSig exWalletTrue 0 "T" none (some exEnvThread)
      { globals := [], fields := [] }).2.2.2.2.2.1⟩

/-! ### Claim theorems: missing message type -/

/-- C8 (amended): the configuration error for an empty or missing
declared message type is raised when an instance is constructed
(`__init__`), and constructing an instance of a kind with a nonempty
declared type never raises it. -/
theorem c8_missing_type_instance_fault (kind : MessageKind) (idOpt : Option String)
    (dsOpt : Option DecoratorSet) (body : WireMap) (fresh : String) :
    (kind.message_type.getD "" = "" →
      AgentMessage.mk0 kind idOpt dsOpt body fresh =
        Except.error "Cannot instantiate abstract class with no message_type") ∧
    (kind.message_type.getD "" ≠ "" →
      ∃ m, AgentMessage.mk0 kind idOpt dsOpt body fresh = Except.ok m) := by
  constructor
  · intro h
    simp only [AgentMessage.mk0.eq_def]
    rw [if_pos h]
  · intro h
    simp only [AgentMessage.mk0.eq_def]
    rw [if_neg h]
    exact ⟨_, rfl⟩

/-- C8 counterexample: a kind whose declared type is missing raises the
configuration error at instance-construction time (inside `__init__`),
not at kind-definition time — defining the kind itself runs no check. -/
theorem c8_counterexample :
    AgentMessage.mk0 { message_type := none, signed_fields := [] } none none [] "u1" =
      Except.error "Cannot instantiate abstract class with no message_type" := rfl

theorem c8_missing_type_instance_fault_witness :
    (AgentMessage.mk0 { message_type := some "", signed_fields := [] }
        (some "id-Z") none [] "u2" =
      Except.error "Cannot instantiate abstract class with no message_type") ∧
    (∃ m, AgentMessage.mk0 exKind (some "id-Z") none [] "u2" = Except.ok m) :=
  ⟨(c8_missing_type_instance_fault { message_type := some "", signed_fields := [] }
      (some "id-Z") none [] "u2").1 (by decide),
   (c8_missing_type_instance_fault exKind (some "id-Z") none [] "u2").2 (by decide)⟩

/-! ### Signed-field check lemmas -/

/-- The stored signature of a field in a decorator set. -/
def DecoratorSet.sigOf (ds : DecoratorSet) (f : String) : Option SignatureDecorator :=
  (alookup ds.fields f).bind FieldDecos.sig

/-- The signature entries recorded by the signed-fields loop. -/
def foundEntries (flds : List (String × FieldDecos)) :
    List (String × SignatureDecorator) :=
  flds.filterMap (fun p => p.2.sig.map (fun sd => (p.1, sd)))

/-- The decoded plain-map entries appended by the signed-fields loop. -/
def decodedEntries (flds : List (String × FieldDecos)) : WireMap :=
  flds.filterMap (fun p => p.2.sig.map (fun sd => (p.1, WireVal.str sd.decode.1)))

theorem firstMissing_eq_none_iff (expect present : List String) :
    firstMissing expect present = none ↔ ∀ f ∈ expect, f ∈ present := by
  induction expect with
  | nil => simp [firstMissing]
  | cons f rest ih =>
    by_cases h : f ∈ present
    · simp [firstMissing, h, ih]
    · simp [firstMissing, h]

theorem firstMissing_eq_some : ∀ (expect present : List String) (f : String),
    firstMissing expect present = some f → f ∈ expect ∧ f ∉ present := by
  intro expect
  induction expect with
  | nil => intro present f h; cases h
  | cons g rest ih =>
    intro present f h
    by_cases hg : g ∈ present
    · rw [firstMissing, if_pos hg] at h
      rcases ih present f h with ⟨h1, h2⟩
      exact ⟨List.mem_cons_of_mem _ h1, h2⟩
    · rw [firstMissing, if_neg hg] at h
      injection h with h2
      rw [← h2]
      exact ⟨List.mem_cons_self _ _, hg⟩

theorem foundEntries_nil : foundEntries [] = [] := rfl

theorem foundEntries_cons_none {n : String} {fd : FieldDecos}
    {rest : List (String × FieldDecos)} (h : fd.sig = none) :
    foundEntries ((n, fd) :: rest) = foundEntries rest := by
  simp [foundEntries, List.filterMap_cons, h]

theorem foundEntries_cons_some {n : String} {fd : FieldDecos}
    {rest : List (String × FieldDecos)} {sd : SignatureDecorator}
    (h : fd.sig = some sd) :
    foundEntries ((n, fd) :: rest) = (n, sd) :: foundEntries rest := by
  simp [foundEntries, List.filterMap_cons, h]

theorem decodedEntries_nil : decodedEntries [] = [] := rfl

theorem decodedEntries_cons_none {n : String} {fd : FieldDecos}
    {rest : List (String × FieldDecos)} (h : fd.sig = none) :
    decodedEntries ((n, fd) :: rest) = decodedEntries rest := by
  simp [decodedEntries, List.filterMap_cons, h]

theorem decodedEntries_cons_some {n : String} {fd : FieldDecos}
    {rest : List (String × FieldDecos)} {sd : SignatureDecorator}
    (h : fd.sig = some sd) :
    decodedEntries ((n, fd) :: rest) =
      (n, WireVal.str sd.decode.1) :: decodedEntries rest := by
  simp [decodedEntries, List.filterMap_cons, h]

theorem mem_keys_of_mem_keys_foundEntries :
    ∀ (flds : List (String × FieldDecos)) (f : String),
    f ∈ keys (foundEntries flds) → f ∈ keys flds := by
  intro flds
  induction flds with
  | nil => intro f h; exact absurd h (by simp [foundEntries_nil, keys])
  | cons p rest ih =>
    intro f h
    obtain ⟨n, fd⟩ := p
    rw [keys_cons]
    cases hsd : fd.sig with
    | none =>
      rw [foundEntries_cons_none hsd] at h
      exact List.mem_cons_of_mem _ (ih f h)
    | some sd =>
      rw [foundEntries_cons_some hsd, keys_cons] at h
      rcases List.mem_cons.mp h with he | hm
      · exact List.mem_cons.mpr (Or.inl he)
      · exact List.mem_cons_of_mem _ (ih f hm)

theorem sigOf_none_iff_not_mem_foundEntries :
    ∀ (flds : List (String × FieldDecos)) (f : String), (keys flds).Nodup →
    ((alookup flds f).bind FieldDecos.sig = none ↔ f ∉ keys (foundEntries flds)) := by
  intro flds
  induction flds with
  | nil =>
    intro f _
    constructor
    · intro _
      simp [foundEntries_nil, keys]
    · intro _
      rfl
  | cons p rest ih =>
    intro f hnd
    obtain ⟨n, fd⟩ := p
    rw [keys_cons, List.nodup_cons] at hnd
    rw [alookup_cons]
    by_cases hg : n = f
    · rw [if_pos hg]
      have hb : (some fd).bind FieldDecos.sig = fd.sig := rfl
      rw [hb]
      cases hsd : fd.sig with
      | none =>
        rw [foundEntries_cons_none hsd]
        constructor
        · intro _ hmem
          exact hnd.1 (by rw [hg]; exact mem_keys_of_mem_keys_foundEntries rest f hmem)
        · intro _
          rfl
      | some sd =>
        rw [foundEntries_cons_some hsd, keys_cons]
        constructor
        · intro h
          cases h
        · intro h
          exact absurd (List.mem_cons.mpr (Or.inl hg.symm)) h
    · rw [if_neg hg, ih f hnd.2]
      cases hsd : fd.sig with
      | none =>
        rw [foundEntries_cons_none hsd]
      | some sd =>
        rw [foundEntries_cons_some hsd, keys_cons]
        constructor
        · intro h hmem
          rcases List.mem_cons.mp hmem with he | hm
          · exact hg he.symm
          · exact h hm
        · intro h hmem
          exact h (List.mem_cons_of_mem _ hmem)

theorem alookup_decodedEntries :
    ∀ (flds : List (String × FieldDecos)) (f : String) (sd : SignatureDecorator),
    (alookup flds f).bind FieldDecos.sig = some sd →
    alookup (decodedEntries flds) f = some (WireVal.str sd.decode.1) := by
  intro flds
  induction flds with
  | nil => intro f sd h; cases h
  | cons p rest ih =>
    intro f sd h
    obtain ⟨n, fd⟩ := p
    rw [alookup_cons] at h
    by_cases hg : n = f
    · rw [if_pos hg] at h
      have hb : (some fd).bind FieldDecos.sig = fd.sig := rfl
      rw [hb] at h
      rw [decodedEntries_cons_some h, alookup_cons, if_pos hg]
    · rw [if_neg hg] at h
      cases hsd : fd.sig with
      | none =>
        rw [decodedEntries_cons_none hsd]
        exact ih f sd h
      | some sd2 =>
        rw [decodedEntries_cons_some hsd, alookup_cons, if_neg hg]
        exact ih f sd h

theorem csfLoop_spec (expect : List String) :
    ∀ (flds : List (String × FieldDecos)) (processed : WireMap)
      (found : List (String × SignatureDecorator)), (keys flds).Nodup →
    ((∃ e, csfLoop expect flds processed found = Except.error e) ↔
      ∃ p ∈ flds, ∃ sd, p.2.sig = some sd ∧ (p.1 ∉ expect ∨ p.1 ∈ keys processed)) ∧
    (∀ res, csfLoop expect flds processed found = Except.ok res →
      res.1 = processed ++ decodedEntries flds ∧ res.2 = found ++ foundEntries flds) := by
  intro flds
  induction flds with
  | nil =>
    intro processed found _
    constructor
    · constructor
      · rintro ⟨e, he⟩
        cases he
      · rintro ⟨p, hp, _⟩
        exact absurd hp (List.not_mem_nil p)
    · intro res h
      have h2 : (processed, found) = res := by
        have hr : csfLoop expect [] processed found = Except.ok (processed, found) := rfl
        rw [hr] at h
        injection h
      rw [← h2, decodedEntries_nil, foundEntries_nil]
      exact ⟨(List.append_nil processed).symm, (List.append_nil found).symm⟩
  | cons p rest ih =>
    intro processed found hnd
    obtain ⟨f, fd⟩ := p
    rw [keys_cons, List.nodup_cons] at hnd
    cases hsd : fd.sig with
    | none =>
      have hstep : csfLoop expect ((f, fd) :: rest) processed found =
          csfLoop expect rest processed found := by
        simp [csfLoop, hsd]
      rcases ih processed found hnd.2 with ⟨ihiff, ihok⟩
      constructor
      · rw [hstep, ihiff]
        constructor
        · rintro ⟨p, hp, sd, hpsig, hcond⟩
          exact ⟨p, List.mem_cons_of_mem _ hp, sd, hpsig, hcond⟩
        · rintro ⟨p, hp, sd, hpsig, hcond⟩
          rcases List.mem_cons.mp hp with he | hm
          · exfalso
            have hps : fd.sig = some sd := by rw [he] at hpsig; exact hpsig
            rw [hsd] at hps
            cases hps
          · exact ⟨p, hm, sd, hpsig, hcond⟩
      · intro res h
        rw [hstep] at h
        rcases ihok res h with ⟨h1, h2⟩
        rw [decodedEntries_cons_none hsd, foundEntries_cons_none hsd]
        exact ⟨h1, h2⟩
    | some sd =>
      by_cases hexp : f ∈ expect
      · by_cases hproc : f ∈ keys processed
        · have hstep : csfLoop expect ((f, fd) :: rest) processed found =
              Except.error ("Message defines both field signature and value: " ++ f) := by
            simp [csfLoop, hsd, hexp, hproc]
          constructor
          · rw [hstep]
            constructor
            · intro _
              exact ⟨(f, fd), List.mem_cons_self _ _, sd, hsd, Or.inr hproc⟩
            · intro _
              exact ⟨_, rfl⟩
          · intro res h
            rw [hstep] at h
            cases h
        · have hstep : csfLoop expect ((f, fd) :: rest) processed found =
              csfLoop expect rest (processed ++ [(f, WireVal.str sd.decode.1)])
                (found ++ [(f, sd)]) := by
            simp [csfLoop, hsd, hexp, hproc]
          rcases ih (processed ++ [(f, WireVal.str sd.decode.1)]) (found ++ [(f, sd)])
            hnd.2 with ⟨ihiff, ihok⟩
          have hkeys : keys (processed ++ [(f, WireVal.str sd.decode.1)]) =
              keys processed ++ [f] := by
            rw [keys_append]
            rfl
          constructor
          · rw [hstep, ihiff]
            constructor
            · rintro ⟨p, hp, sd2, hpsig, hcond⟩
              refine ⟨p, List.mem_cons_of_mem _ hp, sd2, hpsig, ?_⟩
              rcases hcond with hc | hc
              · exact Or.inl hc
              · rw [hkeys] at hc
                rcases List.mem_append.mp hc with hc2 | hc2
                · exact Or.inr hc2
                · exfalso
                  have hpf : p.1 = f := by simpa using hc2
                  exact hnd.1 (by rw [← hpf]; exact List.mem_map.mpr ⟨p, hp, rfl⟩)
            · rintro ⟨p, hp, sd2, hpsig, hcond⟩
              rcases List.mem_cons.mp hp with he | hm
              · exfalso
                have hpf : p.1 = f := by rw [he]
                rcases hcond with hc | hc
                · exact hc (by rw [hpf]; exact hexp)
                · exact hproc (by rw [hpf] at hc; exact hc)
              · refine ⟨p, hm, sd2, hpsig, ?_⟩
                rcases hcond with hc | hc
                · exact Or.inl hc
                · right
                  rw [hkeys]
                  exact List.mem_append.mpr (Or.inl hc)
          · intro res h
            rw [hstep] at h
            rcases ihok res h with ⟨h1, h2⟩
            rw [decodedEntries_cons_some hsd, foundEntries_cons_some hsd]
            constructor
            · rw [h1]
              simp
            · rw [h2]
              simp
      · have hstep : csfLoop expect ((f, fd) :: rest) processed found =
            Except.error ("Encountered unexpected field signature: " ++ f) := by
          simp [csfLoop, hsd, hexp]
        constructor
        · rw [hstep]
          constructor
          · intro _
            exact ⟨(f, fd), List.mem_cons_self _ _, sd, hsd, Or.inl hexp⟩
          · intro _
            exact ⟨_, rfl⟩
        · intro res h
          rw [hstep] at h
          cases h

theorem except_bind_ok {ε α β : Type} (a : α) (f : α → Except ε β) :
    (Except.ok a : Except ε α).bind f = f a := rfl

theorem except_bind_err {ε α β : Type} (e : ε) (f : α → Except ε β) :
    (Except.error e : Except ε α).bind f = Except.error e := rfl

theorem except_mapError_ok {ε ε2 α : Type} (g : ε → ε2) (a : α) :
    (Except.ok a : Except ε α).mapError g = Except.ok a := rfl

theorem except_mapError_err {ε ε2 α : Type} (g : ε → ε2) (e : ε) :
    (Except.error e : Except ε α).mapError g = Except.error (g e) := rfl

theorem sigOf_eq_some_elim {ds : DecoratorSet} {f : String} {sd : SignatureDecorator}
    (h : ds.sigOf f = some sd) : ∃ fd, (f, fd) ∈ ds.fields ∧ fd.sig = some sd := by
  rw [DecoratorSet.sigOf] at h
  cases halk : alookup ds.fields f with
  | none => rw [halk] at h; cases h
  | some fd =>
    rw [halk] at h
    exact ⟨fd, mem_of_alookup_eq_some halk, h⟩

theorem csfCond_iff_conflict_or_unexpected (plain : WireMap) (ds : DecoratorSet)
    (expect : List String) (hnd : (keys ds.fields).Nodup) :
    (∃ p ∈ ds.fields, ∃ sd, p.2.sig = some sd ∧ (p.1 ∉ expect ∨ p.1 ∈ keys plain)) ↔
      ((∃ f ∈ expect, f ∈ keys plain ∧ ds.sigOf f ≠ none) ∨
       (∃ f, ds.sigOf f ≠ none ∧ f ∉ expect)) := by
  constructor
  · rintro ⟨p, hp, sd, hpsig, hcond⟩
    have hmem : (p.1, p.2) ∈ ds.fields := by rw [Prod.mk.eta]; exact hp
    have hsig : ds.sigOf p.1 = some sd := by
      rw [DecoratorSet.sigOf, alookup_of_mem_nodup hnd hmem]
      exact hpsig
    by_cases hexp : p.1 ∈ expect
    · left
      refine ⟨p.1, hexp, ?_, ?_⟩
      · rcases hcond with hc | hc
        · exact absurd hexp hc
        · exact hc
      · rw [hsig]
        exact Option.some_ne_none sd
    · right
      exact ⟨p.1, by rw [hsig]; exact Option.some_ne_none sd, hexp⟩
  · rintro (⟨f, hf, hplain, hsig⟩ | ⟨f, hsig, hexp⟩)
    · rcases Option.ne_none_iff_exists.mp hsig with ⟨sd, hsd⟩
      rcases sigOf_eq_some_elim hsd.symm with ⟨fd, hmem, hfdsig⟩
      exact ⟨(f, fd), hmem, sd, hfdsig, Or.inr hplain⟩
    · rcases Option.ne_none_iff_exists.mp hsig with ⟨sd, hsd⟩
      rcases sigOf_eq_some_elim hsd.symm with ⟨fd, hmem, hfdsig⟩
      exact ⟨(f, fd), hmem, sd, hfdsig, Or.inl hexp⟩

theorem checks_error_iff (plain : WireMap) (ds : DecoratorSet)
    (expect : List String) (hnd : (keys ds.fields).Nodup) :
    (∃ e, extract_decorators_checks plain ds expect = Except.error e) ↔
      ((∃ f ∈ expect, ds.sigOf f = none) ∨
       (∃ f ∈ expect, f ∈ keys plain ∧ ds.sigOf f ≠ none) ∨
       (∃ f, ds.sigOf f ≠ none ∧ f ∉ expect)) := by
  rcases csfLoop_spec expect ds.fields plain [] hnd with ⟨hiff, hok⟩
  cases hcsf : csfLoop expect ds.fields plain [] with
  | error e =>
    have hchk : extract_decorators_checks plain ds expect = Except.error e := by
      rw [extract_decorators_checks, hcsf]
      rfl
    constructor
    · intro _
      right
      exact (csfCond_iff_conflict_or_unexpected plain ds expect hnd).mp
        (hiff.mp ⟨e, hcsf⟩)
    · intro _
      exact ⟨e, hchk⟩
  | ok res =>
    rcases hok res hcsf with ⟨h1, h2⟩
    have hres2 : keys res.2 = keys (foundEntries ds.fields) := by
      rw [h2]
      simp
    have hchk : extract_decorators_checks plain ds expect =
        (match firstMissing expect (keys res.2) with
         | some f => Except.error ("Expected field signature: " ++ f)
         | none => Except.ok res.1) := by
      rw [extract_decorators_checks, hcsf]
      rfl
    cases hfm : firstMissing expect (keys res.2) with
    | some f =>
      rcases firstMissing_eq_some expect (keys res.2) f hfm with ⟨hf1, hf2⟩
      constructor
      · intro _
        left
        refine ⟨f, hf1, ?_⟩
        rw [DecoratorSet.sigOf, sigOf_none_iff_not_mem_foundEntries ds.fields f hnd,
          ← hres2]
        exact hf2
      · intro _
        rw [hchk, hfm]
        exact ⟨_, rfl⟩
    | none =>
      have hall : ∀ f ∈ expect, f ∈ keys res.2 := (firstMissing_eq_none_iff _ _).mp hfm
      have hchk2 : extract_decorators_checks plain ds expect = Except.ok res.1 := by
        rw [hchk, hfm]
      constructor
      · rintro ⟨e, he⟩
        rw [hchk2] at he
        cases he
      · rintro (⟨f, hf, hsig⟩ | hBC)
        · exfalso
          rw [DecoratorSet.sigOf,
            sigOf_none_iff_not_mem_foundEntries ds.fields f hnd] at hsig
          exact hsig (by rw [← hres2]; exact hall f hf)
        · exfalso
          rcases hiff.mpr
            ((csfCond_iff_conflict_or_unexpected plain ds expect hnd).mpr hBC) with
            ⟨e, he⟩
          rw [hcsf] at he
          cases he

theorem checks_ok_characterization (plain : WireMap) (ds : DecoratorSet)
    (expect : List String) (hnd : (keys ds.fields).Nodup) (p2 : WireMap)
    (h : extract_decorators_checks plain ds expect = Except.ok p2) :
    p2 = plain ++ decodedEntries ds.fields ∧
      ∀ f ∈ expect, f ∈ keys (foundEntries ds.fields) := by
  cases hcsf : csfLoop expect ds.fields plain [] with
  | error e =>
    rw [extract_decorators_checks, hcsf] at h
    cases h
  | ok res =>
    rcases (csfLoop_spec expect ds.fields plain [] hnd).2 res hcsf with ⟨h1, h2⟩
    rw [extract_decorators_checks, hcsf] at h
    have h3 : (match firstMissing expect (keys res.2) with
        | some f => Except.error ("Expected field signature: " ++ f)
        | none => Except.ok res.1) = Except.ok p2 := h
    cases hfm : firstMissing expect (keys res.2) with
    | some f =>
      rw [hfm] at h3
      cases h3
    | none =>
      rw [hfm] at h3
      injection h3 with h4
      constructor
      · rw [← h4, h1]
      · intro f hf
        have hmem := (firstMissing_eq_none_iff _ _).mp hfm f hf
        rw [h2] at hmem
        simpa using hmem

theorem mapError_config_bind_ok_ne_validation (x : Except String AgentMessage)
    (g : AgentMessage → AgentMessage) (e : String) :
    (x.mapError LoadErr.config).bind (fun m => Except.ok (g m)) ≠
      Except.error (LoadErr.validation e) := by
  cases x with
  | error s =>
    intro h
    rw [except_mapError_err, except_bind_err] at h
    injection h with h2
    cases h2
  | ok m =>
    intro h
    rw [except_mapError_ok, except_bind_ok] at h
    cases h

theorem fullLoad_validation_iff_checks (kind : MessageKind) (raw : WireMap)
    (expect : List String) (fresh : String) (st : ExtractState)
    (hext : DecoratorSet.extract_decorators raw = Except.ok st) :
    ((∃ e, fullLoad kind raw expect fresh = Except.error (LoadErr.validation e)) ↔
      (∃ e, extract_decorators_checks st.plain st.ds expect = Except.error e)) := by
  cases hchk : extract_decorators_checks st.plain st.ds expect with
  | error e =>
    have hfl : fullLoad kind raw expect fresh = Except.error (LoadErr.validation e) := by
      simp only [fullLoad, hext, except_mapError_ok, except_bind_ok, hchk,
        except_mapError_err, except_bind_err]
    constructor
    · intro _
      exact ⟨e, rfl⟩
    · intro _
      exact ⟨e, hfl⟩
  | ok p2 =>
    constructor
    · rintro ⟨e, he⟩
      exfalso
      simp only [fullLoad, hext, except_mapError_ok, except_bind_ok, hchk] at he
      exact mapError_config_bind_ok_ne_validation _ _ e he
    · rintro ⟨e, he⟩
      cases he

/-- C1: after decorator extraction, the signed-fields load checks fault
exactly when some policy field has no stored signature, some policy
field appears both as a plain key and as a signature decorator, or some
signature decorator belongs to a field outside the policy; when none of
these hold, every policy field's value in the resulting plain map is
the decoded value of its stored signature — and, given a successful
extraction, the full load pipeline raises a validation fault exactly
when these checks fault. -/
theorem c1_load_validation_fault_characterization (plain : WireMap)
    (ds : DecoratorSet) (expect : List String) (hnd : (keys ds.fields).Nodup) :
    ((∃ e, extract_decorators_checks plain ds expect = Except.error e) ↔
      ((∃ f ∈ expect, ds.sigOf f = none) ∨
       (∃ f ∈ expect, f ∈ keys plain ∧ ds.sigOf f ≠ none) ∨
       (∃ f, ds.sigOf f ≠ none ∧ f ∉ expect))) ∧
    (∀ p2, extract_decorators_checks plain ds expect = Except.ok p2 →
      ∀ f ∈ expect, ∃ sd, ds.sigOf f = some sd ∧
        alookup p2 f = some (WireVal.str sd.decode.1)) ∧
    (∀ kind raw fresh st, DecoratorSet.extract_decorators raw = Except.ok st →
      st.plain = plain → st.ds = ds →
      ((∃ e, fullLoad kind raw expect fresh = Except.error (LoadErr.validation e)) ↔
        (∃ e, extract_decorators_checks plain ds expect = Except.error e))) := by
  refine ⟨checks_error_iff plain ds expect hnd, ?_, ?_⟩
  · intro p2 hp2 f hf
    rcases checks_ok_characterization plain ds expect hnd p2 hp2 with ⟨hp2eq, hall⟩
    have hsig_ne : ¬ (ds.sigOf f = none) := by
      intro h
      rw [DecoratorSet.sigOf,
        sigOf_none_iff_not_mem_foundEntries ds.fields f hnd] at h
      exact h (hall f hf)
    rcases Option.ne_none_iff_exists.mp hsig_ne with ⟨sd, hsd⟩
    refine ⟨sd, hsd.symm, ?_⟩
    have hfnotplain : f ∉ keys plain := by
      intro hmem
      rcases (checks_error_iff plain ds expect hnd).mpr
        (Or.inr (Or.inl ⟨f, hf, hmem, hsig_ne⟩)) with ⟨e, he⟩
      rw [hp2] at he
      cases he
    rw [hp2eq, alookup_append_of_not_mem _ hfnotplain]
    exact alookup_decodedEntries ds.fields f sd hsd.symm
  · intro kind raw fresh st hext hp hd
    have hiff := fullLoad_validation_iff_checks kind raw expect fresh st hext
    rw [hp, hd] at hiff
    exact hiff

theorem c1_load_validation_fault_characterization_witness :
    (∃ e, extract_decorators_checks [("a", WireVal.str "1")] exEnvSig.decorators []
        = Except.error e) ∧
    (∀ f ∈ ["f"], ∃ sd, exEnvSig.decorators.sigOf f = some sd ∧
      alookup [("a", WireVal.str "1"), ("f", WireVal.str "v1")] f =
        some (WireVal.str sd.decode.1)) :=
  ⟨((c1_load_validation_fault_characterization [("a", WireVal.str "1")]
      exEnvSig.decorators [] (by decide)).1).mpr
      (Or.inr (Or.inr ⟨"f", by decide, by decide⟩)),
   (c1_load_validation_fault_characterization [("a", WireVal.str "1")]
      exEnvSig.decorators ["f"] (by decide)).2.1
      [("a", WireVal.str "1"), ("f", WireVal.str "v1")] rfl⟩

/-! ### Claim theorems: dump-time signature check -/

/-- C6: the pre-dump check faults with "Missing signature for field"
exactly when some policy field has no stored signature in the
snapshot's side table, and in that case the whole dump pipeline
returns that fault before any wire map is produced, so no partial
output is exposed. -/
theorem c6_dump_missing_signature_fault (m : AgentMessage) (expect : List String) :
    ((∃ e, check_dump_decorators m expect = Except.error e) ↔
      ∃ f ∈ expect, f ∉ keys (sigTable m.decorators)) ∧
    ((∃ f ∈ expect, f ∉ keys (sigTable m.decorators)) →
      ∃ f, f ∈ expect ∧ f ∉ keys (sigTable m.decorators) ∧
        fullDump m expect =
          Except.error (DumpErr.model ("Missing signature for field: " ++ f))) := by
  constructor
  · cases hfm : firstMissing expect (keys (sigTable m.decorators)) with
    | some f =>
      have hchk : check_dump_decorators m expect =
          Except.error (DumpErr.model ("Missing signature for field: " ++ f)) := by
        rw [check_dump_decorators, hfm]
      rcases firstMissing_eq_some _ _ f hfm with ⟨h1, h2⟩
      constructor
      · intro _
        exact ⟨f, h1, h2⟩
      · intro _
        exact ⟨_, hchk⟩
    | none =>
      have hall := (firstMissing_eq_none_iff _ _).mp hfm
      have hchk : check_dump_decorators m expect =
          Except.ok ((pruneSigs m.decorators).to_dict, sigTable m.decorators) := by
        rw [check_dump_decorators, hfm]
      constructor
      · rintro ⟨e, he⟩
        rw [hchk] at he
        cases he
      · rintro ⟨f, hf, hnot⟩
        exact absurd (hall f hf) hnot
  · intro hmiss
    cases hfm : firstMissing expect (keys (sigTable m.decorators)) with
    | some f =>
      rcases firstMissing_eq_some _ _ f hfm with ⟨h1, h2⟩
      refine ⟨f, h1, h2, ?_⟩
      have hchk : check_dump_decorators m expect =
          Except.error (DumpErr.model ("Missing signature for field: " ++ f)) := by
        rw [check_dump_decorators, hfm]
      rw [fullDump, hchk, except_bind_err]
    | none =>
      exfalso
      rcases hmiss with ⟨f, hf, hnot⟩
      exact hnot ((firstMissing_eq_none_iff _ _).mp hfm f hf)

/-- Fixture envelope whose policy-mandated field has no signature. -/
def exEnvNoSig : AgentMessage :=
  { kind := exKind
    message_id := "id-E"
    message_new_id := false
    decorators := { globals := [], fields := [] }
    body := [("f", WireVal.str "v")] }

theorem c6_dump_missing_signature_fault_witness :
    ∃ f, f ∈ ["f"] ∧ f ∉ keys (sigTable exEnvNoSig.decorators) ∧
      fullDump exEnvNoSig ["f"] =
        Except.error (DumpErr.model ("Missing signature for field: " ++ f)) :=
  (c6_dump_missing_signature_fault exEnvNoSig ["f"]).2 ⟨"f", by decide, by decide⟩

/-! ### Dump composition lemmas -/

theorem exists_split_of_mem_keys {α : Type} :
    ∀ {m : List (String × α)} {k : String}, k ∈ keys m →
    ∃ m1 v m2, m = m1 ++ (k, v) :: m2 ∧ k ∉ keys m1 := by
  intro m
  induction m with
  | nil => intro k h; exact absurd h (by simp [keys])
  | cons p rest ih =>
    intro k h
    obtain ⟨g, v⟩ := p
    by_cases hg : g = k
    · exact ⟨[], v, rest, by rw [hg]; rfl, by simp [keys]⟩
    · have hm : k ∈ keys rest := by
        rw [keys_cons] at h
        rcases List.mem_cons.mp h with he | hm
        · exact absurd he.symm hg
        · exact hm
      rcases ih hm with ⟨m1, v2, m2, heq, hnot⟩
      refine ⟨(g, v) :: m1, v2, m2, by rw [heq]; rfl, ?_⟩
      rw [keys_cons]
      intro hmem
      rcases List.mem_cons.mp hmem with he | hm2
      · exact hg he.symm
      · exact hnot hm2

/-- Removes every entry whose key is listed in `fs`. -/
def removeKeys (m : WireMap) (fs : List String) : WireMap :=
  m.filter (fun q => decide (q.1 ∉ fs))

theorem removeKeys_nil (fs : List String) : removeKeys [] fs = [] := rfl

theorem removeKeys_append (a b : WireMap) (fs : List String) :
    removeKeys (a ++ b) fs = removeKeys a fs ++ removeKeys b fs := by
  simp [removeKeys, List.filter_append]

theorem removeKeys_cons_mem (q : String × WireVal) (m : WireMap) (fs : List String)
    (h : q.1 ∈ fs) :
    removeKeys (q :: m) fs = removeKeys m fs := by
  simp [removeKeys, List.filter_cons, h]

theorem removeKeys_cons_not_mem (q : String × WireVal) (m : WireMap) (fs : List String)
    (h : q.1 ∉ fs) :
    removeKeys (q :: m) fs = q :: removeKeys m fs := by
  simp [removeKeys, List.filter_cons, h]

theorem removeKeys_eq_self {m : WireMap} {fs : List String}
    (h : ∀ q ∈ m, q.1 ∉ fs) : removeKeys m fs = m := by
  induction m with
  | nil => rfl
  | cons q rest ih =>
    rw [removeKeys_cons_not_mem q rest fs (h q (List.mem_cons_self _ _))]
    rw [ih (fun q2 hq2 => h q2 (List.mem_cons_of_mem _ hq2))]

theorem removeKeys_congr {m : WireMap} {fs gs : List String}
    (h : ∀ q ∈ m, q.1 ∈ fs ↔ q.1 ∈ gs) :
    removeKeys m fs = removeKeys m gs := by
  induction m with
  | nil => rfl
  | cons q rest ih =>
    have ih2 := ih (fun q2 hq2 => h q2 (List.mem_cons_of_mem _ hq2))
    by_cases hq : q.1 ∈ fs
    · rw [removeKeys_cons_mem q rest fs hq,
        removeKeys_cons_mem q rest gs ((h q (List.mem_cons_self _ _)).mp hq), ih2]
    · rw [removeKeys_cons_not_mem q rest fs hq,
        removeKeys_cons_not_mem q rest gs
          (fun hc => hq ((h q (List.mem_cons_self _ _)).mpr hc)),
        ih2]

theorem keys_removeKeys (m : WireMap) (fs : List String) :
    keys (removeKeys m fs) = (keys m).filter (fun k => decide (k ∉ fs)) := by
  induction m with
  | nil => rfl
  | cons q rest ih =>
    by_cases hq : q.1 ∈ fs
    · rw [removeKeys_cons_mem q rest fs hq, keys_cons, List.filter_cons]
      simp only [hq]
      simpa using ih
    · rw [removeKeys_cons_not_mem q rest fs hq, keys_cons, keys_cons, List.filter_cons]
      simp [hq, ih]

theorem replace_signatures_spec :
    ∀ (sigs : List (String × WireVal)) (A mid B : WireMap),
    (∀ s ∈ sigs, s.1 ∉ keys A ∧ s.1 ∉ keys B ∧
      (s.1 ++ "~sig") ∉ keys A ∧ (s.1 ++ "~sig") ∉ keys mid ∧
      (s.1 ++ "~sig") ∉ keys B) →
    (∀ s ∈ sigs, ∀ s2 ∈ sigs, s.1 ++ "~sig" = s2.1 ++ "~sig" → s.1 = s2.1) →
    (∀ s ∈ sigs, ∀ s2 ∈ sigs, s.1 ≠ s2.1 ++ "~sig") →
    (keys sigs).Nodup → (keys mid).Nodup →
    ((∀ s ∈ sigs, s.1 ∈ keys mid) →
      replace_signatures_hook (A ++ mid ++ B) sigs =
        Except.ok (A ++ removeKeys mid (keys sigs) ++ B ++
          sigs.map (fun s => (s.1 ++ "~sig", s.2)))) ∧
    ((¬ ∀ s ∈ sigs, s.1 ∈ keys mid) →
      ∃ g, g ∈ keys sigs ∧ g ∉ keys mid ∧
        replace_signatures_hook (A ++ mid ++ B) sigs =
          Except.error (DumpErr.keyError g)) := by
  intro sigs
  induction sigs with
  | nil =>
    intro A mid B _ _ _ _ _
    constructor
    · intro _
      rw [show keys ([] : List (String × WireVal)) = [] from rfl,
        removeKeys_eq_self (fun q _ => List.not_mem_nil q.1)]
      simp [replace_signatures_hook]
    · intro hno
      exact absurd (fun s hs => absurd hs (List.not_mem_nil s)) hno
  | cons s rest ih =>
    intro A mid B hmem hinj hplain hnd hndmid
    obtain ⟨f, sv⟩ := s
    rw [keys_cons, List.nodup_cons] at hnd
    rcases hmem (f, sv) (List.mem_cons_self _ _) with ⟨hfA, hfB, hfsA, hfsM, hfsB⟩
    have hkc : keys ((f, sv) :: rest) = f :: keys rest := rfl
    by_cases hfmid : f ∈ keys mid
    · rcases exists_split_of_mem_keys hfmid with ⟨m1, v, m2, hmid_eq, hfm1⟩
      have hndmid2 := hndmid
      rw [hmid_eq, keys_append, keys_cons] at hndmid2
      have hfm2 : f ∉ keys m2 :=
        (List.nodup_cons.mp (List.Nodup.of_append_right hndmid2)).1
      have hm1sub : ∀ k, k ∈ keys m1 → k ∈ keys mid := by
        intro k hk
        rw [hmid_eq, keys_append]
        exact List.mem_append.mpr (Or.inl hk)
      have hm2sub : ∀ k, k ∈ keys m2 → k ∈ keys mid := by
        intro k hk
        rw [hmid_eq, keys_append, keys_cons]
        exact List.mem_append.mpr (Or.inr (List.mem_cons_of_mem _ hk))
      have hdata : A ++ mid ++ B = (A ++ m1) ++ (f, v) :: (m2 ++ B) := by
        rw [hmid_eq]
        simp [List.append_assoc]
      have hfAm1 : f ∉ keys (A ++ m1) := by
        rw [keys_append]
        intro hc
        rcases List.mem_append.mp hc with hc | hc
        · exact hfA hc
        · exact hfm1 hc
      have hdel : odDel (A ++ mid ++ B) f = some ((A ++ m1) ++ (m2 ++ B)) := by
        rw [hdata]
        exact odDel_middle v (m2 ++ B) hfAm1
      have hfs_not : (f ++ "~sig") ∉ keys ((A ++ m1) ++ (m2 ++ B)) := by
        rw [keys_append, keys_append, keys_append]
        intro hc
        rcases List.mem_append.mp hc with hc | hc
        · rcases List.mem_append.mp hc with hc2 | hc2
          · exact hfsA hc2
          · exact hfsM (hm1sub _ hc2)
        · rcases List.mem_append.mp hc with hc2 | hc2
          · exact hfsM (hm2sub _ hc2)
          · exact hfsB hc2
      have hins : odInsert ((A ++ m1) ++ (m2 ++ B)) (f ++ "~sig") sv =
          A ++ (m1 ++ m2) ++ (B ++ [(f ++ "~sig", sv)]) := by
        rw [odInsert_of_not_mem _ hfs_not]
        simp [List.append_assoc]
      have hstep : replace_signatures_hook (A ++ mid ++ B) ((f, sv) :: rest) =
          replace_signatures_hook (A ++ (m1 ++ m2) ++ (B ++ [(f ++ "~sig", sv)])) rest := by
        simp only [replace_signatures_hook, hdel, hins]
      have hmem2 : ∀ s ∈ rest, s.1 ∉ keys A ∧ s.1 ∉ keys (B ++ [(f ++ "~sig", sv)]) ∧
          (s.1 ++ "~sig") ∉ keys A ∧ (s.1 ++ "~sig") ∉ keys (m1 ++ m2) ∧
          (s.1 ++ "~sig") ∉ keys (B ++ [(f ++ "~sig", sv)]) := by
        intro s hs
        rcases hmem s (List.mem_cons_of_mem _ hs) with ⟨h1, h2, h3, h4, h5⟩
        have hsne : s.1 ≠ f := by
          intro hc
          exact hnd.1 (by rw [← hc]; exact List.mem_map.mpr ⟨s, hs, rfl⟩)
        refine ⟨h1, ?_, h3, ?_, ?_⟩
        · rw [keys_append]
          intro hc
          rcases List.mem_append.mp hc with hc2 | hc2
          · exact h2 hc2
          · have : s.1 = f ++ "~sig" := by simpa [keys] using hc2
            exact hplain s (List.mem_cons_of_mem _ hs) (f, sv)
              (List.mem_cons_self _ _) this
        · rw [keys_append]
          intro hc
          rcases List.mem_append.mp hc with hc2 | hc2
          · exact h4 (hm1sub _ hc2)
          · exact h4 (hm2sub _ hc2)
        · rw [keys_append]
          intro hc
          rcases List.mem_append.mp hc with hc2 | hc2
          · exact h5 hc2
          · have heq2 : s.1 ++ "~sig" = f ++ "~sig" := by simpa [keys] using hc2
            exact hsne (hinj s (List.mem_cons_of_mem _ hs) (f, sv)
              (List.mem_cons_self _ _) heq2)
      have hinj2 : ∀ s ∈ rest, ∀ s2 ∈ rest, s.1 ++ "~sig" = s2.1 ++ "~sig" →
          s.1 = s2.1 := by
        intro s hs s2 hs2
        exact hinj s (List.mem_cons_of_mem _ hs) s2 (List.mem_cons_of_mem _ hs2)
      have hplain2 : ∀ s ∈ rest, ∀ s2 ∈ rest, s.1 ≠ s2.1 ++ "~sig" := by
        intro s hs s2 hs2
        exact hplain s (List.mem_cons_of_mem _ hs) s2 (List.mem_cons_of_mem _ hs2)
      have hndmid3 : (keys (m1 ++ m2)).Nodup := by
        rw [keys_append]
        refine List.Nodup.sublist ?_ hndmid2
        exact List.Sublist.append_left (List.Sublist.cons f (List.Sublist.refl _)) _
      rcases ih A (m1 ++ m2) (B ++ [(f ++ "~sig", sv)]) hmem2 hinj2 hplain2
        hnd.2 hndmid3 with ⟨ihpos, ihneg⟩
      constructor
      · intro hall
        have hall2 : ∀ s ∈ rest, s.1 ∈ keys (m1 ++ m2) := by
          intro s hs
          have hsmid := hall s (List.mem_cons_of_mem _ hs)
          have hsne : s.1 ≠ f := by
            intro hc
            exact hnd.1 (by rw [← hc]; exact List.mem_map.mpr ⟨s, hs, rfl⟩)
          rw [hmid_eq, keys_append, keys_cons] at hsmid
          rw [keys_append]
          rcases List.mem_append.mp hsmid with hc | hc
          · exact List.mem_append.mpr (Or.inl hc)
          · rcases List.mem_cons.mp hc with hc2 | hc2
            · exact absurd hc2 hsne
            · exact List.mem_append.mpr (Or.inr hc2)
        rw [hstep, ihpos hall2]
        have h1iff : ∀ q ∈ m1, (q.1 ∈ keys ((f, sv) :: rest) ↔ q.1 ∈ keys rest) := by
          intro q hq
          rw [hkc]
          have hqf : q.1 ≠ f := by
            intro hc
            exact hfm1 (by rw [← hc]; exact List.mem_map.mpr ⟨q, hq, rfl⟩)
          constructor
          · intro hc
            rcases List.mem_cons.mp hc with hc2 | hc2
            · exact absurd hc2 hqf
            · exact hc2
          · exact List.mem_cons_of_mem _
        have h2iff : ∀ q ∈ m2, (q.1 ∈ keys ((f, sv) :: rest) ↔ q.1 ∈ keys rest) := by
          intro q hq
          rw [hkc]
          have hqf : q.1 ≠ f := by
            intro hc
            exact hfm2 (by rw [← hc]; exact List.mem_map.mpr ⟨q, hq, rfl⟩)
          constructor
          · intro hc
            rcases List.mem_cons.mp hc with hc2 | hc2
            · exact absurd hc2 hqf
            · exact hc2
          · exact List.mem_cons_of_mem _
        have hrhs : removeKeys mid (keys ((f, sv) :: rest)) =
            removeKeys (m1 ++ m2) (keys rest) := by
          rw [hmid_eq, removeKeys_append,
            removeKeys_cons_mem (f, v) m2 (keys ((f, sv) :: rest))
              (by rw [hkc]; exact List.mem_cons_self _ _),
            removeKeys_congr h1iff, removeKeys_congr h2iff, ← removeKeys_append]
        rw [hrhs]
        simp [List.append_assoc]
      · intro hno
        have hno2 : ¬ ∀ s ∈ rest, s.1 ∈ keys (m1 ++ m2) := by
          intro hall2
          apply hno
          intro s hs
          rcases List.mem_cons.mp hs with he | hm
          · rw [he]
            exact hfmid
          · have hsk := hall2 s hm
            rw [hmid_eq, keys_append, keys_cons]
            rw [keys_append] at hsk
            rcases List.mem_append.mp hsk with hc | hc
            · exact List.mem_append.mpr (Or.inl hc)
            · exact List.mem_append.mpr (Or.inr (List.mem_cons_of_mem _ hc))
        rcases ihneg hno2 with ⟨g, hg1, hg2, hgeq⟩
        have hgne : g ≠ f := by
          intro hc
          rw [hc] at hg1
          exact hnd.1 hg1
        refine ⟨g, by rw [keys_cons]; exact List.mem_cons_of_mem _ hg1, ?_, ?_⟩
        · intro hc
          apply hg2
          rw [hmid_eq, keys_append, keys_cons] at hc
          rw [keys_append]
          rcases List.mem_append.mp hc with hc2 | hc2
          · exact List.mem_append.mpr (Or.inl hc2)
          · rcases List.mem_cons.mp hc2 with hc3 | hc3
            · exact absurd hc3 hgne
            · exact List.mem_append.mpr (Or.inr hc3)
        · rw [hstep]
          exact hgeq
    · have hdel : odDel (A ++ mid ++ B) f = none := by
        apply odDel_eq_none_of_not_mem
        rw [keys_append, keys_append]
        intro hc
        rcases List.mem_append.mp hc with hc2 | hc2
        · rcases List.mem_append.mp hc2 with hc3 | hc3
          · exact hfA hc3
          · exact hfmid hc3
        · exact hfB hc2
      have hstep : replace_signatures_hook (A ++ mid ++ B) ((f, sv) :: rest) =
          Except.error (DumpErr.keyError f) := by
        simp only [replace_signatures_hook, hdel]
      constructor
      · intro hall
        exact absurd (hall (f, sv) (List.mem_cons_self _ _)) hfmid
      · intro _
        exact ⟨f, by rw [keys_cons]; exact List.mem_cons_self _ _, hfmid, hstep⟩

theorem parseKey_attype : parseKey "@type" = some KeyParse.plain := by decide

theorem parseKey_atid : parseKey "@id" = some KeyParse.plain := by decide

theorem keys_map_sigwire (sigs : List (String × WireVal)) :
    keys (sigs.map (fun s => (s.1 ++ "~sig", s.2))) =
      (keys sigs).map (fun f => f ++ "~sig") := by
  simp [keys, List.map_map]

theorem sigFieldsOf_eq_keys_sigTable (m : AgentMessage) :
    sigFieldsOf m = keys (sigTable m.decorators) := by
  rw [sigFieldsOf, sigTable]
  induction m.decorators.fields with
  | nil => rfl
  | cons p rest ih =>
    rw [List.filterMap_cons, List.filterMap_cons]
    cases hsd : p.2.sig with
    | none => simpa using ih
    | some sd =>
      simp only [Option.map_some']
      rw [keys_cons, ih]
  
theorem keys_sigTable_sublist (ds : DecoratorSet) :
    (keys (sigTable ds)).Sublist (keys ds.fields) := by
  rw [sigTable]
  induction ds.fields with
  | nil => exact List.Sublist.refl _
  | cons p rest ih =>
    rw [List.filterMap_cons, keys_cons]
    cases hsd : p.2.sig with
    | none =>
      simp only [Option.map_none']
      exact List.Sublist.cons p.1 ih
    | some sd =>
      simp only [Option.map_some']
      rw [keys_cons]
      exact List.Sublist.cons₂ p.1 ih

theorem mem_sigTable_elim {ds : DecoratorSet} {s : String × WireVal}
    (h : s ∈ sigTable ds) :
    ∃ p ∈ ds.fields, ∃ sd, p.2.sig = some sd ∧ s = (p.1, WireVal.sigv sd) := by
  rw [sigTable] at h
  rcases List.mem_filterMap.mp h with ⟨p, hp, hps⟩
  cases hsd : p.2.sig with
  | none => rw [hsd] at hps; cases hps
  | some sd =>
    rw [hsd] at hps
    injection hps with h2
    exact ⟨p, hp, sd, hsd, h2.symm⟩

theorem mem_keys_sigTable_elim {ds : DecoratorSet} {f : String}
    (h : f ∈ keys (sigTable ds)) :
    ∃ p ∈ ds.fields, p.1 = f ∧ ∃ sd, p.2.sig = some sd := by
  rcases List.mem_map.mp h with ⟨s, hs, hsf⟩
  rcases mem_sigTable_elim hs with ⟨p, hp, sd, hsd, hse⟩
  refine ⟨p, hp, ?_, sd, hsd⟩
  rw [hse] at hsf
  exact hsf

theorem mem_keys_to_dict_pruned {ds : DecoratorSet} {k : String}
    (h : k ∈ keys (DecoratorSet.to_dict (pruneSigs ds))) :
    (∃ p ∈ ds.globals, k = "~" ++ p.1) ∨
    (∃ p ∈ ds.fields, ∃ q ∈ p.2.others, k = p.1 ++ "~" ++ q.1) := by
  rw [DecoratorSet.to_dict, keys_append] at h
  rcases List.mem_append.mp h with hc | hc
  · left
    rcases List.mem_map.mp hc with ⟨q, hq, hqe⟩
    rcases List.mem_map.mp hq with ⟨p, hp, hpe⟩
    refine ⟨p, ?_, ?_⟩
    · rw [pruneSigs] at hp
      exact hp
    · rw [← hqe, ← hpe]
  · right
    rcases List.mem_map.mp hc with ⟨q, hq, hqe⟩
    rcases List.mem_flatten.mp hq with ⟨l, hl, hql⟩
    rcases List.mem_map.mp hl with ⟨p, hp, hpe⟩
    rw [pruneSigs] at hp
    rcases List.mem_map.mp hp with ⟨p0, hp0, hp0e⟩
    rw [← hp0e] at hpe
    simp only at hpe
    rw [← hpe] at hql
    rcases List.mem_append.mp hql with hc2 | hc2
    · simp at hc2
    · rcases List.mem_map.mp hc2 with ⟨q2, hq2, hq2e⟩
      refine ⟨p0, hp0, q2, hq2, ?_⟩
      rw [← hqe, ← hq2e]

theorem ddkey_cases {ds : DecoratorSet}
    (hg : ∀ p ∈ ds.globals, parseKey ("~" ++ p.1) = some (KeyParse.glob p.1))
    (hf : ∀ p ∈ ds.fields, ∀ q ∈ p.2.others,
      parseKey (p.1 ++ "~" ++ q.1) = some (KeyParse.fieldDeco p.1 q.1) ∧ q.1 ≠ "sig")
    {k : String} (hk : k ∈ keys (DecoratorSet.to_dict (pruneSigs ds))) :
    (∃ n, parseKey k = some (KeyParse.glob n)) ∨
    (∃ f2 kd, parseKey k = some (KeyParse.fieldDeco f2 kd) ∧ kd ≠ "sig") := by
  rcases mem_keys_to_dict_pruned hk with ⟨p, hp, hke⟩ | ⟨p, hp, q, hq, hke⟩
  · left
    exact ⟨p.1, by rw [hke]; exact hg p hp⟩
  · right
    rcases hf p hp q hq with ⟨hparse, hkd⟩
    exact ⟨p.1, q.1, by rw [hke]; exact hparse, hkd⟩

theorem plain_not_in_dd {ds : DecoratorSet}
    (hg : ∀ p ∈ ds.globals, parseKey ("~" ++ p.1) = some (KeyParse.glob p.1))
    (hf : ∀ p ∈ ds.fields, ∀ q ∈ p.2.others,
      parseKey (p.1 ++ "~" ++ q.1) = some (KeyParse.fieldDeco p.1 q.1) ∧ q.1 ≠ "sig")
    {x : String} (hx : parseKey x = some KeyParse.plain) :
    x ∉ keys (DecoratorSet.to_dict (pruneSigs ds)) := by
  intro hmem
  rcases ddkey_cases hg hf hmem with ⟨n, hn⟩ | ⟨f2, kd, hkd, _⟩
  · rw [hx] at hn
    injection hn with h2
    cases h2
  · rw [hx] at hkd
    injection hkd with h2
    cases h2

theorem fieldsig_not_in_dd {ds : DecoratorSet}
    (hg : ∀ p ∈ ds.globals, parseKey ("~" ++ p.1) = some (KeyParse.glob p.1))
    (hf : ∀ p ∈ ds.fields, ∀ q ∈ p.2.others,
      parseKey (p.1 ++ "~" ++ q.1) = some (KeyParse.fieldDeco p.1 q.1) ∧ q.1 ≠ "sig")
    {x f2 : String} (hx : parseKey x = some (KeyParse.fieldDeco f2 "sig")) :
    x ∉ keys (DecoratorSet.to_dict (pruneSigs ds)) := by
  intro hmem
  rcases ddkey_cases hg hf hmem with ⟨n, hn⟩ | ⟨f3, kd, hkd, hkdne⟩
  · rw [hx] at hn
    injection hn with h2
    cases h2
  · rw [hx] at hkd
    injection hkd with h2
    injection h2 with h3 h4
    exact hkdne h4.symm

/-- Wire-key well-formedness of a decorator set: decorator names and
field names render to parseable decorator keys, field names are
ordinary plain keys distinct from the reserved `@type`/`@id`, and the
decorator dictionaries carry no duplicate keys. -/
def wireSafeDeco (ds : DecoratorSet) : Prop :=
  (∀ p ∈ ds.globals, parseKey ("~" ++ p.1) = some (KeyParse.glob p.1) ∧
    (p.1 = "thread" → p.2.isThread = true)) ∧
  (∀ p ∈ ds.fields, parseKey p.1 = some KeyParse.plain ∧
    p.1 ≠ "@type" ∧ p.1 ≠ "@id" ∧
    parseKey (p.1 ++ "~sig") = some (KeyParse.fieldDeco p.1 "sig") ∧
    ∀ q ∈ p.2.others, parseKey (p.1 ++ "~" ++ q.1) = some (KeyParse.fieldDeco p.1 q.1) ∧
      q.1 ≠ "sig") ∧
  (keys ds.fields).Nodup ∧
  (keys (DecoratorSet.to_dict (pruneSigs ds))).Nodup

/-- Wire-key well-formedness of a business-field map: every key is an
ordinary plain key distinct from the reserved keys, without
duplicates. -/
def wireSafeBody (b : WireMap) : Prop :=
  (∀ p ∈ b, parseKey p.1 = some KeyParse.plain ∧ p.1 ≠ "@type" ∧ p.1 ≠ "@id") ∧
  (keys b).Nodup

instance (ds : DecoratorSet) : Decidable (wireSafeDeco ds) := by
  unfold wireSafeDeco
  infer_instance

instance (b : WireMap) : Decidable (wireSafeBody b) := by
  unfold wireSafeBody
  infer_instance

theorem dump_decorators_hook_eq (dd body : WireMap) (tv iv : WireVal)
    (hdd1 : "@type" ∉ keys dd) (hdd2 : "@id" ∉ keys dd)
    (hddnd : (keys dd).Nodup)
    (hb1 : "@type" ∉ keys body) (hb2 : "@id" ∉ keys body)
    (hbdd : ∀ k ∈ keys body, k ∉ keys dd)
    (hbnd : (keys body).Nodup) :
    dump_decorators_hook dd (("@type", tv) :: ("@id", iv) :: body) =
      ("@type", tv) :: ("@id", iv) :: (dd ++ body) := by
  have hpop1 : popKey (("@type", tv) :: ("@id", iv) :: body) "@type" =
      (some tv, ("@id", iv) :: body) := by
    simp [popKey]
  have hpop2 : popKey (("@id", iv) :: body) "@id" = (some iv, body) := by
    simp [popKey]
  simp only [dump_decorators_hook, hpop1, hpop2]
  have h1 : odUpdate ([("@type", tv)] ++ [("@id", iv)] : WireMap) dd =
      ([("@type", tv)] ++ [("@id", iv)]) ++ dd := by
    refine odUpdate_eq_append ?_ hddnd
    intro k hk hmem
    have hk2 : k = "@type" ∨ k = "@id" := by simpa [keys] using hmem
    rcases hk2 with h | h
    · rw [h] at hk
      exact hdd1 hk
    · rw [h] at hk
      exact hdd2 hk
  have h2 : odUpdate (([("@type", tv)] ++ [("@id", iv)]) ++ dd) body =
      (([("@type", tv)] ++ [("@id", iv)]) ++ dd) ++ body := by
    refine odUpdate_eq_append ?_ hbnd
    intro k hk hmem
    rw [keys_append] at hmem
    rcases List.mem_append.mp hmem with hc | hc
    · have hk2 : k = "@type" ∨ k = "@id" := by simpa [keys] using hc
      rcases hk2 with h | h
      · rw [h] at hk
        exact hb1 hk
      · rw [h] at hk
        exact hb2 hk
    · exact hbdd k hk hc
  rw [h1, h2]
  simp

theorem fullDump_spec (m : AgentMessage) (expect : List String)
    (hds : wireSafeDeco m.decorators) (hb : wireSafeBody m.body)
    (hall : ∀ f ∈ expect, f ∈ keys (sigTable m.decorators)) :
    ((∀ f ∈ keys (sigTable m.decorators), f ∈ keys m.body) →
      fullDump m expect = Except.ok (
        (("@type", WireVal.str (m.kind.message_type.getD "")) ::
         ("@id", WireVal.str m.message_id) ::
         DecoratorSet.to_dict (pruneSigs m.decorators)) ++
        removeKeys m.body (keys (sigTable m.decorators)) ++ [] ++
        (sigTable m.decorators).map (fun s => (s.1 ++ "~sig", s.2)))) ∧
    ((¬ ∀ f ∈ keys (sigTable m.decorators), f ∈ keys m.body) →
      ∃ g, g ∈ keys (sigTable m.decorators) ∧ g ∉ keys m.body ∧
        fullDump m expect = Except.error (DumpErr.keyError g)) := by
  obtain ⟨hdsg, hdsf, hdsnd, hddnd⟩ := hds
  obtain ⟨hbp, hbnd⟩ := hb
  have hgp : ∀ p ∈ m.decorators.globals,
      parseKey ("~" ++ p.1) = some (KeyParse.glob p.1) :=
    fun p hp => (hdsg p hp).1
  have hfp : ∀ p ∈ m.decorators.fields, ∀ q ∈ p.2.others,
      parseKey (p.1 ++ "~" ++ q.1) = some (KeyParse.fieldDeco p.1 q.1) ∧ q.1 ≠ "sig" :=
    fun p hp => (hdsf p hp).2.2.2.2
  have hfm : firstMissing expect (keys (sigTable m.decorators)) = none :=
    (firstMissing_eq_none_iff _ _).mpr hall
  have hchk : check_dump_decorators m expect =
      Except.ok ((pruneSigs m.decorators).to_dict, sigTable m.decorators) := by
    simp only [check_dump_decorators, hfm]
  have hb1 : "@type" ∉ keys m.body := by
    intro hmem
    rcases List.mem_map.mp hmem with ⟨p, hp, hpe⟩
    exact (hbp p hp).2.1 hpe
  have hb2 : "@id" ∉ keys m.body := by
    intro hmem
    rcases List.mem_map.mp hmem with ⟨p, hp, hpe⟩
    exact (hbp p hp).2.2 hpe
  have hbodyparse : ∀ k ∈ keys m.body, parseKey k = some KeyParse.plain := by
    intro k hk
    rcases List.mem_map.mp hk with ⟨p, hp, hpe⟩
    rw [← hpe]
    exact (hbp p hp).1
  have hhook : dump_decorators_hook ((pruneSigs m.decorators).to_dict)
      (("@type", WireVal.str (m.kind.message_type.getD "")) ::
       ("@id", WireVal.str m.message_id) :: m.body) =
      ("@type", WireVal.str (m.kind.message_type.getD "")) ::
      ("@id", WireVal.str m.message_id) ::
      ((pruneSigs m.decorators).to_dict ++ m.body) := by
    refine dump_decorators_hook_eq _ _ _ _
      (plain_not_in_dd hgp hfp parseKey_attype)
      (plain_not_in_dd hgp hfp parseKey_atid) hddnd hb1 hb2 ?_ hbnd
    intro k hk
    exact plain_not_in_dd hgp hfp (hbodyparse k hk)
  have hfd : fullDump m expect =
      replace_signatures_hook
        (("@type", WireVal.str (m.kind.message_type.getD "")) ::
         ("@id", WireVal.str m.message_id) ::
         ((pruneSigs m.decorators).to_dict ++ m.body))
        (sigTable m.decorators) := by
    simp only [fullDump, hchk, except_bind_ok, hhook]
  have hshape : ("@type", WireVal.str (m.kind.message_type.getD "")) ::
      ("@id", WireVal.str m.message_id) ::
      ((pruneSigs m.decorators).to_dict ++ m.body) =
      (("@type", WireVal.str (m.kind.message_type.getD "")) ::
       ("@id", WireVal.str m.message_id) ::
       (pruneSigs m.decorators).to_dict) ++ m.body ++ [] := by
    simp
  have hsigfacts : ∀ s ∈ sigTable m.decorators,
      parseKey s.1 = some KeyParse.plain ∧ s.1 ≠ "@type" ∧ s.1 ≠ "@id" ∧
      parseKey (s.1 ++ "~sig") = some (KeyParse.fieldDeco s.1 "sig") := by
    intro s hs
    rcases mem_sigTable_elim hs with ⟨p, hp, sd, hsd, hse⟩
    rcases hdsf p hp with ⟨h1, h2, h3, h4, _⟩
    rw [hse]
    exact ⟨h1, h2, h3, h4⟩
  have hmemh : ∀ s ∈ sigTable m.decorators,
      s.1 ∉ keys (("@type", WireVal.str (m.kind.message_type.getD "")) ::
        ("@id", WireVal.str m.message_id) :: (pruneSigs m.decorators).to_dict) ∧
      s.1 ∉ keys ([] : WireMap) ∧
      (s.1 ++ "~sig") ∉ keys (("@type", WireVal.str (m.kind.message_type.getD "")) ::
        ("@id", WireVal.str m.message_id) :: (pruneSigs m.decorators).to_dict) ∧
      (s.1 ++ "~sig") ∉ keys m.body ∧
      (s.1 ++ "~sig") ∉ keys ([] : WireMap) := by
    intro s hs
    rcases hsigfacts s hs with ⟨h1, h2, h3, h4⟩
    refine ⟨?_, by simp [keys], ?_, ?_, by simp [keys]⟩
    · rw [keys_cons, keys_cons]
      intro hc
      rcases List.mem_cons.mp hc with hc2 | hc2
      · exact h2 hc2
      · rcases List.mem_cons.mp hc2 with hc3 | hc3
        · exact h3 hc3
        · exact plain_not_in_dd hgp hfp h1 hc3
    · rw [keys_cons, keys_cons]
      intro hc
      rcases List.mem_cons.mp hc with hc2 | hc2
      · rw [hc2] at h4
        rw [parseKey_attype] at h4
        cases h4
      · rcases List.mem_cons.mp hc2 with hc3 | hc3
        · rw [hc3] at h4
          rw [parseKey_atid] at h4
          cases h4
        · exact fieldsig_not_in_dd hgp hfp h4 hc3
    · intro hc
      have hpl := hbodyparse _ hc
      rw [hpl] at h4
      cases h4
  have hinjh : ∀ s ∈ sigTable m.decorators, ∀ s2 ∈ sigTable m.decorators,
      s.1 ++ "~sig" = s2.1 ++ "~sig" → s.1 = s2.1 := by
    intro s hs s2 hs2 heq
    have h4 := (hsigfacts s hs).2.2.2
    have h42 := (hsigfacts s2 hs2).2.2.2
    rw [heq, h42] at h4
    injection h4 with h5
    injection h5 with h6 h7
    exact h6.symm
  have hplainh : ∀ s ∈ sigTable m.decorators, ∀ s2 ∈ sigTable m.decorators,
      s.1 ≠ s2.1 ++ "~sig" := by
    intro s hs s2 hs2 heq
    have h1 := (hsigfacts s hs).1
    have h42 := (hsigfacts s2 hs2).2.2.2
    rw [heq, h42] at h1
    cases h1
  have hsignd : (keys (sigTable m.decorators)).Nodup :=
    List.Nodup.sublist (keys_sigTable_sublist m.decorators) hdsnd
  rcases replace_signatures_spec (sigTable m.decorators)
    (("@type", WireVal.str (m.kind.message_type.getD "")) ::
     ("@id", WireVal.str m.message_id) :: (pruneSigs m.decorators).to_dict)
    m.body []
    (fun s hs => ⟨((hmemh s hs).1), ((hmemh s hs).2.1), ((hmemh s hs).2.2.1),
      ((hmemh s hs).2.2.2.1), ((hmemh s hs).2.2.2.2)⟩)
    hinjh hplainh hsignd hbnd with ⟨hpos, hneg⟩
  constructor
  · intro hallb
    have hallb2 : ∀ s ∈ sigTable m.decorators, s.1 ∈ keys m.body := by
      intro s hs
      exact hallb s.1 (List.mem_map.mpr ⟨s, hs, rfl⟩)
    rw [hfd, hshape]
    exact hpos hallb2
  · intro hnob
    have hnob2 : ¬ ∀ s ∈ sigTable m.decorators, s.1 ∈ keys m.body := by
      intro hallb2
      apply hnob
      intro f hf
      rcases List.mem_map.mp hf with ⟨s, hs, hse⟩
      rw [← hse]
      exact hallb2 s hs
    rcases hneg hnob2 with ⟨g, hg1, hg2, hgeq⟩
    refine ⟨g, hg1, hg2, ?_⟩
    rw [hfd, hshape]
    exact hgeq

/-! ### Claim theorems: dump output ordering -/

/-- C2: every successful dump under a signed-fields policy emits
`@type` first, then `@id`, then the decorator wire keys of the pruned
snapshot, then the plain business keys of the non-signature-carrying
fields, then a `<field>~sig` key per stored signature — and the bare
plain key of a signature-carrying field never appears in the output. -/
theorem c2_dump_output_ordering (m : AgentMessage) (expect : List String)
    (out : WireMap) (hds : wireSafeDeco m.decorators) (hb : wireSafeBody m.body)
    (hok : fullDump m expect = Except.ok out) :
    keys out = "@type" :: "@id" ::
      (keys (DecoratorSet.to_dict (pruneSigs m.decorators)) ++
       ((keys m.body).filter (fun k => decide (k ∉ sigFieldsOf m)) ++
        (sigFieldsOf m).map (fun f => f ++ "~sig"))) ∧
    ∀ f ∈ sigFieldsOf m, f ∉ keys out := by
  have hall : ∀ f ∈ expect, f ∈ keys (sigTable m.decorators) := by
    cases hfm : firstMissing expect (keys (sigTable m.decorators)) with
    | some f =>
      exfalso
      have hchk : check_dump_decorators m expect =
          Except.error (DumpErr.model ("Missing signature for field: " ++ f)) := by
        simp only [check_dump_decorators, hfm]
      simp only [fullDump, hchk, except_bind_err] at hok
      cases hok
    | none => exact (firstMissing_eq_none_iff _ _).mp hfm
  have hkeyfacts : ∀ f ∈ keys (sigTable m.decorators),
      parseKey f = some KeyParse.plain ∧ f ≠ "@type" ∧ f ≠ "@id" ∧
      parseKey (f ++ "~sig") = some (KeyParse.fieldDeco f "sig") := by
    intro f hf
    rcases mem_keys_sigTable_elim hf with ⟨p, hp, hpe, sd, hsd⟩
    rcases hds.2.1 p hp with ⟨h1, h2, h3, h4, _⟩
    rw [← hpe]
    exact ⟨h1, h2, h3, h4⟩
  rcases fullDump_spec m expect hds hb hall with ⟨hpos, hneg⟩
  by_cases hallb : ∀ f ∈ keys (sigTable m.decorators), f ∈ keys m.body
  · have hok2 := hpos hallb
    rw [hok2] at hok
    injection hok with hout
    rw [← hout]
    constructor
    · rw [keys_append, keys_append, keys_append, keys_cons, keys_cons,
        keys_removeKeys, keys_map_sigwire, sigFieldsOf_eq_keys_sigTable]
      simp [List.append_assoc, keys]
    · intro f hf0
      have hf : f ∈ keys (sigTable m.decorators) := by
        rw [sigFieldsOf_eq_keys_sigTable] at hf0
        exact hf0
      rcases hkeyfacts f hf with ⟨h1, h2, h3, h4⟩
      rw [keys_append, keys_append, keys_append, keys_cons, keys_cons]
      intro hc
      rcases List.mem_append.mp hc with hc1 | hcY
      · rcases List.mem_append.mp hc1 with hc2 | hcE
        · rcases List.mem_append.mp hc2 with hcA | hcX
          · rcases List.mem_cons.mp hcA with hc3 | hc3
            · exact h2 hc3
            · rcases List.mem_cons.mp hc3 with hc4 | hc4
              · exact h3 hc4
              · exact plain_not_in_dd (fun p hp => (hds.1 p hp).1)
                  (fun p hp => (hds.2.1 p hp).2.2.2.2) h1 hc4
          · rw [keys_removeKeys] at hcX
            rcases List.mem_filter.mp hcX with ⟨_, hpred⟩
            have hpred2 : f ∉ keys (sigTable m.decorators) := by simpa using hpred
            exact hpred2 hf
        · exact absurd hcE (by simp [keys])
      · rw [keys_map_sigwire] at hcY
        rcases List.mem_map.mp hcY with ⟨g, hg, hge⟩
        rcases hkeyfacts g hg with ⟨_, _, _, hg4⟩
        rw [← hge, hg4] at h1
        injection h1 with h5
        cases h5
  · exfalso
    rcases hneg hallb with ⟨g, _, _, hgeq⟩
    rw [hgeq] at hok
    cases hok

/-- Fixture envelope with a signed field, another decorated field and a
thread decorator, used for the dump-ordering witness. -/
def exEnvFull : AgentMessage :=
  { kind := exKind
    message_id := "id-2"
    message_new_id := false
    decorators :=
      { globals := [("thread", DecoValue.thread { thid := "T", pthid := none })]
        fields := [("f", { sig := some exSig, others := [("trace", WireVal.str "x")] })] }
    body := [("a", WireVal.str "1"), ("f", WireVal.str "v1")] }

/-- The concrete wire map dumped from `exEnvFull`. -/
def exDumpOut : WireMap :=
  [("@type", WireVal.str "test/1.0/message"),
   ("@id", WireVal.str "id-2"),
   ("~thread", WireVal.thr { thid := "T", pthid := none }),
   ("f~trace", WireVal.str "x"),
   ("a", WireVal.str "1"),
   ("f~sig", WireVal.sigv exSig)]

theorem c2_dump_output_ordering_witness :
    keys exDumpOut = "@type" :: "@id" ::
      (keys (DecoratorSet.to_dict (pruneSigs exEnvFull.decorators)) ++
       ((keys exEnvFull.body).filter (fun k => decide (k ∉ sigFieldsOf exEnvFull)) ++
        (sigFieldsOf exEnvFull).map (fun f => f ++ "~sig"))) ∧
    "f" ∉ keys exDumpOut :=
  ⟨(c2_dump_output_ordering exEnvFull ["f"] exDumpOut (by decide) (by decide) rfl).1,
   (c2_dump_output_ordering exEnvFull ["f"] exDumpOut (by decide) (by decide) rfl).2
     "f" (by decide)⟩

/-! ### Claim theorems: unguarded delete in signature replacement -/

/-- C10: when the pre-dump policy check passes, an envelope holding a
stored signature for a field whose value is absent from the dumped
plain map makes the dump fail with an unhandled missing-key error
(Python `KeyError` from the unguarded `del`), not with a declared dump
fault; and every successful dump requires each signature-carrying
field to have a dumped plain value. -/
theorem c10_replace_signatures_keyerror (m : AgentMessage) (expect : List String)
    (hds : wireSafeDeco m.decorators) (hb : wireSafeBody m.body)
    (hchk : ∀ f ∈ expect, f ∈ keys (sigTable m.decorators)) :
    ((∃ f ∈ sigFieldsOf m, f ∉ keys m.body) →
      ∃ g, g ∈ sigFieldsOf m ∧ g ∉ keys m.body ∧
        fullDump m expect = Except.error (DumpErr.keyError g)) ∧
    (∀ out, fullDump m expect = Except.ok out →
      ∀ f ∈ sigFieldsOf m, f ∈ keys m.body) := by
  rcases fullDump_spec m expect hds hb hchk with ⟨hpos, hneg⟩
  constructor
  · rintro ⟨f, hf, hfb⟩
    have hno : ¬ ∀ f2 ∈ keys (sigTable m.decorators), f2 ∈ keys m.body := by
      intro hall2
      rw [sigFieldsOf_eq_keys_sigTable] at hf
      exact hfb (hall2 f hf)
    rcases hneg hno with ⟨g, hg1, hg2, hgeq⟩
    exact ⟨g, by rw [sigFieldsOf_eq_keys_sigTable]; exact hg1, hg2, hgeq⟩
  · intro out hok f hf
    by_contra hfb
    have hno : ¬ ∀ f2 ∈ keys (sigTable m.decorators), f2 ∈ keys m.body := by
      intro hall2
      rw [sigFieldsOf_eq_keys_sigTable] at hf
      exact hfb (hall2 f hf)
    rcases hneg hno with ⟨g, _, _, hgeq⟩
    rw [hgeq] at hok
    cases hok

/-- Fixture envelope with a stored signature for a field that has no
plain value in the body. -/
def exEnvSigNoPlain : AgentMessage :=
  { kind := exKind
    message_id := "id-3"
    message_new_id := false
    decorators := { globals := [], fields := [("f", { sig := some exSig, others := [] })] }
    body := [("g", WireVal.str "v")] }

theorem c10_replace_signatures_keyerror_witness :
    ∃ g, g ∈ sigFieldsOf exEnvSigNoPlain ∧ g ∉ keys exEnvSigNoPlain.body ∧
      fullDump exEnvSigNoPlain ["f"] = Except.error (DumpErr.keyError g) :=
  (c10_replace_signatures_keyerror exEnvSigNoPlain ["f"] (by decide) (by decide)
    (by decide)).1 ⟨"f", by decide, by decide⟩

/-! ### Extraction segment lemmas -/

theorem extractGo_append :
    ∀ (a b : WireMap) (st : ExtractState),
    extractGo (a ++ b) st = (extractGo a st).bind (extractGo b) := by
  intro a
  induction a with
  | nil => intro b st; rfl
  | cons kv rest ih =>
    intro b st
    cases h : extStep st kv with
    | error e => simp [extractGo, h, except_bind_err]
    | ok st2 => simp [extractGo, h, except_bind_ok, ih]

theorem extractGo_plain_seg :
    ∀ (l : WireMap) (st : ExtractState),
    (∀ kv ∈ l, parseKey kv.1 = some KeyParse.plain ∧ kv.1 ∉ keys st.plain) →
    (keys l).Nodup →
    extractGo l st = Except.ok { st with plain := st.plain ++ l } := by
  intro l
  induction l with
  | nil =>
    intro st _ _
    cases st
    simp [extractGo]
  | cons kv rest ih =>
    intro st h hnd
    rcases h kv (List.mem_cons_self _ _) with ⟨hp, hnm⟩
    have hstep : extStep st kv = Except.ok { st with plain := st.plain ++ [kv] } := by
      simp only [extStep, hp]
      rw [odInsert_of_not_mem kv.2 hnm, Prod.mk.eta]
    have hkc : keys (kv :: rest) = kv.1 :: keys rest := rfl
    rw [hkc, List.nodup_cons] at hnd
    have hrest : extractGo rest { st with plain := st.plain ++ [kv] } =
        Except.ok { st with plain := (st.plain ++ [kv]) ++ rest } := by
      refine ih _ ?_ hnd.2
      intro kv2 hkv2
      rcases h kv2 (List.mem_cons_of_mem _ hkv2) with ⟨hp2, hnm2⟩
      refine ⟨hp2, ?_⟩
      show kv2.1 ∉ keys (st.plain ++ [kv])
      rw [keys_append]
      intro hc
      rcases List.mem_append.mp hc with hc2 | hc2
      · exact hnm2 hc2
      · have he : kv2.1 = kv.1 := by simpa [keys] using hc2
        exact hnd.1 (by rw [← he]; exact List.mem_map.mpr ⟨kv2, hkv2, rfl⟩)
    rw [extractGo, hstep, except_bind_ok, hrest]
    simp [List.append_assoc]

theorem setOtherFields_nosig :
    ∀ (flds : List (String × FieldDecos)) (f kd : String) (v : WireVal),
    (∀ p ∈ flds, p.2.sig = none) →
    ∀ p ∈ setOtherFields f kd v flds, p.2.sig = none := by
  intro flds
  induction flds with
  | nil =>
    intro f kd v _ p hp
    rcases List.mem_singleton.mp hp with he
    rw [he]
  | cons q rest ih =>
    intro f kd v h p hp
    rw [setOtherFields] at hp
    by_cases hq : q.1 = f
    · rw [if_pos hq] at hp
      rcases List.mem_cons.mp hp with he | hm
      · rw [he]
        exact h q (List.mem_cons_self _ _)
      · exact h p (List.mem_cons_of_mem _ hm)
    · rw [if_neg hq] at hp
      rcases List.mem_cons.mp hp with he | hm
      · rw [he]
        exact h q (List.mem_cons_self _ _)
      · exact ih f kd v (fun r hr => h r (List.mem_cons_of_mem _ hr)) p hm

theorem extractGo_deco_seg :
    ∀ (l : WireMap) (st : ExtractState),
    (∀ kv ∈ l,
      (∃ n, parseKey kv.1 = some (KeyParse.glob n) ∧
        (n = "thread" → ∃ t, kv.2 = WireVal.thr t)) ∨
      (∃ f kd, parseKey kv.1 = some (KeyParse.fieldDeco f kd) ∧ kd ≠ "sig")) →
    ∃ ds2, extractGo l st = Except.ok { plain := st.plain, ds := ds2 } ∧
      ((∀ p ∈ st.ds.fields, p.2.sig = none) → (∀ p ∈ ds2.fields, p.2.sig = none)) := by
  intro l
  induction l with
  | nil =>
    intro st _
    exact ⟨st.ds, by cases st; rfl, fun h => h⟩
  | cons kv rest ih =>
    intro st h
    have hnext : ∃ st2, extStep st kv = Except.ok st2 ∧ st2.plain = st.plain ∧
        ((∀ p ∈ st.ds.fields, p.2.sig = none) →
          (∀ p ∈ st2.ds.fields, p.2.sig = none)) := by
      rcases h kv (List.mem_cons_self _ _) with ⟨n, hn, hth⟩ | ⟨f, kd, hfk, hkd⟩
      · by_cases hnth : n = "thread"
        · rcases hth hnth with ⟨t, ht⟩
          refine ⟨{ st with ds := st.ds.setGlobal "thread" (DecoValue.thread t) },
            ?_, rfl, ?_⟩
          · simp only [extStep, hn, ht]
            rw [if_pos hnth]
          · intro hns
            show ∀ p ∈ (st.ds.setGlobal "thread" (DecoValue.thread t)).fields,
              p.2.sig = none
            rw [DecoratorSet.setGlobal]
            exact hns
        · refine ⟨{ st with ds := st.ds.setGlobal n (DecoValue.opq kv.2) }, ?_, rfl, ?_⟩
          · simp only [extStep, hn]
            rw [if_neg hnth]
          · intro hns
            show ∀ p ∈ (st.ds.setGlobal n (DecoValue.opq kv.2)).fields, p.2.sig = none
            rw [DecoratorSet.setGlobal]
            exact hns
      · refine ⟨{ st with ds := st.ds.setFieldOther f kd kv.2 }, ?_, rfl, ?_⟩
        · simp only [extStep, hfk]
          rw [if_neg hkd]
        · intro hns
          show ∀ p ∈ (st.ds.setFieldOther f kd kv.2).fields, p.2.sig = none
          rw [DecoratorSet.setFieldOther]
          exact setOtherFields_nosig st.ds.fields f kd kv.2 hns
    rcases hnext with ⟨st2, hstep, hplain2, hns2⟩
    rcases ih st2 (fun kv2 hkv2 => h kv2 (List.mem_cons_of_mem _ hkv2)) with
      ⟨ds2, hrest, hns3⟩
    refine ⟨ds2, ?_, ?_⟩
    · rw [extractGo, hstep, except_bind_ok, hrest, hplain2]
    · intro hns
      exact hns3 (hns2 hns)

theorem csfLoop_nosig (expect : List String) :
    ∀ (flds : List (String × FieldDecos)) (processed : WireMap)
      (found : List (String × SignatureDecorator)),
    (∀ p ∈ flds, p.2.sig = none) →
    csfLoop expect flds processed found = Except.ok (processed, found) := by
  intro flds
  induction flds with
  | nil => intro processed found _; rfl
  | cons p rest ih =>
    intro processed found h
    obtain ⟨f, fd⟩ := p
    have hsd : fd.sig = none := h (f, fd) (List.mem_cons_self _ _)
    rw [csfLoop, hsd]
    exact ih processed found (fun q hq => h q (List.mem_cons_of_mem _ hq))

theorem checks_nosig (plain : WireMap) (ds : DecoratorSet)
    (h : ∀ p ∈ ds.fields, p.2.sig = none) :
    extract_decorators_checks plain ds [] = Except.ok plain := by
  rw [extract_decorators_checks, csfLoop_nosig [] ds.fields plain [] h]
  rfl

theorem prune_fields_eq_self :
    ∀ (flds : List (String × FieldDecos)), (∀ p ∈ flds, p.2.sig = none) →
    flds.map (fun p => (p.1, { p.2 with sig := none })) = flds := by
  intro flds
  induction flds with
  | nil => intro _; rfl
  | cons p rest ih =>
    intro h
    rw [List.map_cons, ih (fun q hq => h q (List.mem_cons_of_mem _ hq))]
    have hp := h p (List.mem_cons_self _ _)
    obtain ⟨n, fd⟩ := p
    obtain ⟨s, o⟩ := fd
    simp only at hp
    rw [hp]

theorem pruneSigs_eq_self {ds : DecoratorSet}
    (h : ∀ p ∈ ds.fields, p.2.sig = none) : pruneSigs ds = ds := by
  cases ds with
  | mk g flds =>
    rw [pruneSigs]
    simp only
    rw [prune_fields_eq_self flds h]

theorem sigTable_fields_eq_nil :
    ∀ (flds : List (String × FieldDecos)), (∀ p ∈ flds, p.2.sig = none) →
    flds.filterMap (fun p => p.2.sig.map (fun sd => (p.1, sd.serialize))) = [] := by
  intro flds
  induction flds with
  | nil => intro _; rfl
  | cons p rest ih =>
    intro h
    simp only [List.filterMap_cons, h p (List.mem_cons_self _ _), Option.map_none']
    exact ih (fun q hq => h q (List.mem_cons_of_mem _ hq))

theorem sigTable_eq_nil {ds : DecoratorSet}
    (h : ∀ p ∈ ds.fields, p.2.sig = none) : sigTable ds = [] := by
  rw [sigTable]
  exact sigTable_fields_eq_nil ds.fields h

theorem mem_to_dict_pruned_elim {ds : DecoratorSet} {kv : String × WireVal}
    (h : kv ∈ DecoratorSet.to_dict (pruneSigs ds)) :
    (∃ p ∈ ds.globals, kv = ("~" ++ p.1, p.2.toWire)) ∨
    (∃ p ∈ ds.fields, ∃ q ∈ p.2.others, kv = (p.1 ++ "~" ++ q.1, q.2)) := by
  rw [DecoratorSet.to_dict] at h
  rcases List.mem_append.mp h with hc | hc
  · left
    rcases List.mem_map.mp hc with ⟨p, hp, hpe⟩
    exact ⟨p, hp, hpe.symm⟩
  · right
    rcases List.mem_flatten.mp hc with ⟨l, hl, hkvl⟩
    rcases List.mem_map.mp hl with ⟨p, hp, hpe⟩
    have hp2 : p ∈ ds.fields.map (fun p0 => (p0.1, { p0.2 with sig := none })) := hp
    rcases List.mem_map.mp hp2 with ⟨p0, hp0, hp0e⟩
    rw [← hp0e] at hpe
    rw [← hpe] at hkvl
    have hkvl2 : kv ∈ p0.2.others.map (fun q => (p0.1 ++ "~" ++ q.1, q.2)) := by
      simpa using hkvl
    rcases List.mem_map.mp hkvl2 with ⟨q, hq, hqe⟩
    exact ⟨p0, hp0, q, hq, hqe.symm⟩

/-! ### Claim theorems: round trip with an empty policy -/

/-- C9 (amended): for every wire-safe envelope whose kind has an empty
signed-fields policy, which holds no stored field signatures, and whose
id and declared type are nonempty, loading the result of dumping it
succeeds and agrees with the original in id, kind (hence type), and
every business-field value. -/
theorem c9_round_trip_no_signatures (m : AgentMessage) (fresh : String)
    (hty : m.kind.message_type.getD "" ≠ "")
    (hid : m.message_id ≠ "")
    (hnosig : ∀ p ∈ m.decorators.fields, p.2.sig = none)
    (hds : wireSafeDeco m.decorators) (hb : wireSafeBody m.body) :
    ∃ w, fullDump m [] = Except.ok w ∧
      ∃ m2, fullLoad m.kind w [] fresh = Except.ok m2 ∧
        m2.kind = m.kind ∧ m2.message_id = m.message_id ∧ m2.body = m.body := by
  have hst : sigTable m.decorators = [] := sigTable_eq_nil hnosig
  rcases fullDump_spec m [] hds hb (fun f hf => absurd hf (List.not_mem_nil f)) with
    ⟨hpos, _⟩
  have hdump0 := hpos (by rw [hst]; intro f hf; exact absurd hf (by simp [keys]))
  rw [hst] at hdump0
  have hrk : removeKeys m.body (keys ([] : List (String × WireVal))) = m.body :=
    removeKeys_eq_self (fun q _ => List.not_mem_nil q.1)
  rw [hrk] at hdump0
  have hw : fullDump m [] = Except.ok
      ((("@type", WireVal.str (m.kind.message_type.getD "")) ::
        ("@id", WireVal.str m.message_id) ::
        DecoratorSet.to_dict (pruneSigs m.decorators)) ++ m.body) := by
    rw [hdump0]
    simp
  have hfront : extractGo
      [("@type", WireVal.str (m.kind.message_type.getD "")),
       ("@id", WireVal.str m.message_id)]
      ⟨[], ⟨[], []⟩⟩ =
      Except.ok ⟨[("@type", WireVal.str (m.kind.message_type.getD "")),
        ("@id", WireVal.str m.message_id)], ⟨[], []⟩⟩ := by
    refine extractGo_plain_seg _ _ ?_ ?_
    · intro kv hkv
      rcases List.mem_cons.mp hkv with he | hkv2
      · rw [he]
        exact ⟨parseKey_attype, List.not_mem_nil _⟩
      · rcases List.mem_cons.mp hkv2 with he | hkv3
        · rw [he]
          exact ⟨parseKey_atid, List.not_mem_nil _⟩
        · exact absurd hkv3 (List.not_mem_nil kv)
    · show (["@type", "@id"] : List String).Nodup
      decide
  have hddOK : ∀ kv ∈ DecoratorSet.to_dict (pruneSigs m.decorators),
      (∃ n, parseKey kv.1 = some (KeyParse.glob n) ∧
        (n = "thread" → ∃ t, kv.2 = WireVal.thr t)) ∨
      (∃ f kd, parseKey kv.1 = some (KeyParse.fieldDeco f kd) ∧ kd ≠ "sig") := by
    intro kv hkv
    rcases mem_to_dict_pruned_elim hkv with ⟨p, hp, hkve⟩ | ⟨p, hp, q, hq, hkve⟩
    · left
      refine ⟨p.1, ?_, ?_⟩
      · rw [hkve]
        exact (hds.1 p hp).1
      · intro hn
        rw [hkve]
        have hth := (hds.1 p hp).2 hn
        cases hdv : p.2 with
        | thread t => exact ⟨t, rfl⟩
        | opq v =>
          rw [hdv] at hth
          cases hth
    · right
      rcases hds.2.1 p hp with ⟨_, _, _, _, hq2⟩
      rcases hq2 q hq with ⟨hparse, hkd⟩
      refine ⟨p.1, q.1, ?_, hkd⟩
      rw [hkve]
      exact hparse
  rcases extractGo_deco_seg (DecoratorSet.to_dict (pruneSigs m.decorators))
      ⟨[("@type", WireVal.str (m.kind.message_type.getD "")),
        ("@id", WireVal.str m.message_id)], ⟨[], []⟩⟩ hddOK with ⟨ds2, hddext, hns2imp⟩
  have hns2 : ∀ p ∈ ds2.fields, p.2.sig = none :=
    hns2imp (fun p hp => absurd hp (List.not_mem_nil p))
  have hbodyext : extractGo m.body
      ⟨[("@type", WireVal.str (m.kind.message_type.getD "")),
        ("@id", WireVal.str m.message_id)], ds2⟩ =
      Except.ok ⟨[("@type", WireVal.str (m.kind.message_type.getD "")),
        ("@id", WireVal.str m.message_id)] ++ m.body, ds2⟩ := by
    refine extractGo_plain_seg _ _ ?_ hb.2
    intro kv hkv
    rcases hb.1 kv hkv with ⟨h1, h2, h3⟩
    refine ⟨h1, ?_⟩
    intro hc
    have hor : kv.1 = "@type" ∨ kv.1 = "@id" := by simpa [keys] using hc
    rcases hor with h | h
    · exact h2 h
    · exact h3 h
  have hext2 : DecoratorSet.extract_decorators
      ((("@type", WireVal.str (m.kind.message_type.getD "")) ::
        ("@id", WireVal.str m.message_id) ::
        DecoratorSet.to_dict (pruneSigs m.decorators)) ++ m.body) =
      Except.ok ⟨[("@type", WireVal.str (m.kind.message_type.getD "")),
        ("@id", WireVal.str m.message_id)] ++ m.body, ds2⟩ := by
    rw [DecoratorSet.extract_decorators]
    have hsplit : (("@type", WireVal.str (m.kind.message_type.getD "")) ::
        ("@id", WireVal.str m.message_id) ::
        DecoratorSet.to_dict (pruneSigs m.decorators)) ++ m.body =
        ([("@type", WireVal.str (m.kind.message_type.getD "")),
          ("@id", WireVal.str m.message_id)] ++
         DecoratorSet.to_dict (pruneSigs m.decorators)) ++ m.body := by
      simp
    rw [hsplit, extractGo_append, extractGo_append, hfront, except_bind_ok,
      hddext, except_bind_ok]
    exact hbodyext
  have hchk2 : extract_decorators_checks
      ([("@type", WireVal.str (m.kind.message_type.getD "")),
        ("@id", WireVal.str m.message_id)] ++ m.body) ds2 [] =
      Except.ok ([("@type", WireVal.str (m.kind.message_type.getD "")),
        ("@id", WireVal.str m.message_id)] ++ m.body) :=
    checks_nosig _ _ hns2
  have hidlook : alookup
      ([("@type", WireVal.str (m.kind.message_type.getD "")),
        ("@id", WireVal.str m.message_id)] ++ m.body) "@id" =
      some (WireVal.str m.message_id) := by
    apply alookup_append_left
    have hne : (("@type", WireVal.str (m.kind.message_type.getD "")) :
        String × WireVal).1 ≠ "@id" := by
      show ¬ ("@type" = "@id")
      decide
    rw [alookup_cons, if_neg hne, alookup_cons, if_pos rfl]
  have hbodyfilter : List.filter (fun p => decide (p.1 ≠ "@type" ∧ p.1 ≠ "@id"))
      (([("@type", WireVal.str (m.kind.message_type.getD "")),
        ("@id", WireVal.str m.message_id)] ++ m.body) : WireMap) = m.body := by
    rw [List.filter_append]
    have h1 : List.filter (fun p => decide (p.1 ≠ "@type" ∧ p.1 ≠ "@id"))
        ([("@type", WireVal.str (m.kind.message_type.getD "")),
          ("@id", WireVal.str m.message_id)] : WireMap) = [] := by
      simp
    have h2 : List.filter (fun p => decide (p.1 ≠ "@type" ∧ p.1 ≠ "@id")) m.body =
        m.body := by
      rw [List.filter_eq_self]
      intro p hp
      rcases hb.1 p hp with ⟨_, hA, hB⟩
      simp [hA, hB]
    rw [h1, h2]
    simp
  have hmk : AgentMessage.mk0 m.kind (some m.message_id) none m.body fresh =
      Except.ok ⟨m.kind, m.message_id, false, ⟨[], []⟩, m.body⟩ := by
    simp only [AgentMessage.mk0.eq_def]
    rw [if_neg hid, if_neg hty]
    rfl
  refine ⟨_, hw, ?_⟩
  refine ⟨⟨m.kind, m.message_id, false, ds2, m.body⟩, ?_, rfl, rfl, rfl⟩
  simp only [fullLoad, hext2, except_mapError_ok, except_bind_ok, hchk2, hidlook,
    hbodyfilter, hmk, AgentMessage.set_decorators]

/-- C9 counterexample: an envelope whose kind has an empty signed-fields
policy but which holds a stored field signature dumps successfully, yet
loading the dumped wire map fails with an unexpected-field-signature
validation fault, so `load(dump(envelope))` does not reproduce the
envelope. -/
theorem c9_counterexample :
    exKind.signed_fields = [] ∧
    fullDump exEnvSig [] = Except.ok
      [("@type", WireVal.str "test/1.0/message"), ("@id", WireVal.str "id-A"),
       ("f~sig", WireVal.sigv exSig)] ∧
    fullLoad exKind
      [("@type", WireVal.str "test/1.0/message"), ("@id", WireVal.str "id-A"),
       ("f~sig", WireVal.sigv exSig)] [] "fresh-9" =
      Except.error (LoadErr.validation "Encountered unexpected field signature: f") :=
  ⟨rfl, rfl, rfl⟩

/-- Fixture signature-free envelope with a thread decorator, another
field decorator and two business fields, for the round-trip witness. -/
def exEnvRound : AgentMessage :=
  { kind := exKind
    message_id := "id-R"
    message_new_id := false
    decorators :=
      { globals := [("thread", DecoValue.thread { thid := "T", pthid := some "P" })]
        fields := [("f", { sig := none, others := [("trace", WireVal.str "x")] })] }
    body := [("a", WireVal.str "1"), ("b", WireVal.str "2")] }

theorem c9_round_trip_no_signatures_witness :
    ∃ w, fullDump exEnvRound [] = Except.ok w ∧
      ∃ m2, fullLoad exEnvRound.kind w [] "fresh-R" = Except.ok m2 ∧
        m2.kind = exEnvRound.kind ∧ m2.message_id = exEnvRound.message_id ∧
        m2.body = exEnvRound.body :=
  c9_round_trip_no_signatures exEnvRound "fresh-R" (by decide) (by decide) (by decide)
    (by decide) (by decide)
